import Mathlib

/-!
Verification of the quota-aware credential pool, bulk-upsert store layer,
status-update operations, retry wrapper, worker-pool partitioning and
dispatch boundaries of the youtube-scraping repository, via a shallow
embedding of the relevant Python functions into Lean.
-/

set_option autoImplicit false

namespace YoutubeScraping

/-! ## Credentials: `YouTubeApiKey.use_quota` (src/src/models/youtube_api_key.py)
and the Mongo-backed `APIKeyManager` (src/src/utils/api_key_manager.py). -/

/-- State of one `YouTubeApiKey` row: `remaining_quota`, `status` and
`last_updated` (wall-clock time modelled as a `Nat` tick). -/
structure ApiKeyState where
  remaining : Int
  status : String
  lastUpdated : Nat
deriving DecidableEq, Repr

/-- `YouTubeApiKey.use_quota(amount)`: if `remaining_quota < amount` return
`False` leaving the row unchanged; otherwise decrement `remaining_quota`,
refresh `last_updated`, and flip `status` to `"unactive"` when the new
quota is `<= 0`. -/
def useQuota (k : ApiKeyState) (amount : Int) (now : Nat) : Bool × ApiKeyState :=
  if k.remaining < amount then (false, k)
  else
    let r := k.remaining - amount
    let st := if r ≤ 0 then "unactive" else k.status
    (true, { remaining := r, status := st, lastUpdated := now })

/-- A sequence of `use_quota` charges, each given as (amount, now). -/
def useQuotaSeq (k : ApiKeyState) : List (Int × Nat) → ApiKeyState
  | [] => k
  | c :: rest => useQuotaSeq (useQuota k c.1 c.2).2 rest

/-- One document of the Mongo `api_keys` collection, restricted to the
fields read or written by `APIKeyManager` (src/src/utils/api_key_manager.py). -/
structure MongoApiKeyDoc where
  apiKey : String
  remaining : Int
  status : String
  lastUpdated : Nat
deriving DecidableEq, Repr

/-- `APIKeyManager._get_status`: `"active"` iff the quota is positive. -/
def getStatusFor (quota : Int) : String :=
  if quota > 0 then "active" else "unactive"

/-- Mongo `update_one`: rewrite the first document matching the predicate. -/
def updateFirst {α : Type} (p : α → Bool) (f : α → α) : List α → List α
  | [] => []
  | x :: xs => if p x then f x :: xs else x :: updateFirst p f xs

/-- `APIKeyManager.update_quota(api_key, quota_used)` of the Mongo manager:
reads the current quota, computes the new status from
`remaining_quota - quota_used`, then issues an unconditional
`$inc remaining_quota by -quota_used` plus `$set status/last_updated` on the
first matching document.  Returns `modified_count > 0`. -/
def mongoUpdateQuota (store : List MongoApiKeyDoc) (apiKey : String)
    (quotaUsed : Int) (now : Nat) : Bool × List MongoApiKeyDoc :=
  match store.find? (fun d => d.apiKey == apiKey) with
  | none => (false, store)
  | some doc =>
    let newStatus := getStatusFor (doc.remaining - quotaUsed)
    let newStore := updateFirst (fun d => d.apiKey == apiKey)
      (fun d => { d with remaining := d.remaining - quotaUsed,
                         status := newStatus, lastUpdated := now }) store
    (decide (newStore ≠ store), newStore)

/-- `APIKeyManager.get_api_key(email=None)` of the Mongo manager:
`find_one({"status": "active"})` — the first active document in collection
order, with no quota filter and no ordering clause. -/
def mongoGetApiKeyNoEmail (store : List MongoApiKeyDoc) : Option MongoApiKeyDoc :=
  store.find? (fun d => d.status == "active")

/-! ## Credentials: the PostgreSQL `APIKeyManager.get_api_key`
(src/src/database/api_key_manager.py). -/

/-- One `youtube_api_keys` row as used by the PostgreSQL manager. -/
structure PgApiKey where
  id : Nat
  apiKey : String
  remaining : Int
  status : String
  lastUpdated : Nat
deriving DecidableEq, Repr

/-- The WHERE clause of `get_api_key` with no email:
`status == 'active' AND remaining_quota > 0`. -/
def pgQualifies (k : PgApiKey) : Bool :=
  k.status == "active" && decide (0 < k.remaining)

/-- `order_by(last_updated.asc()).first()`: the first row attaining the
minimal `last_updated` (ties broken toward the earlier row). -/
def firstByLastUpdated : List PgApiKey → Option PgApiKey
  | [] => none
  | k :: ks =>
    match firstByLastUpdated ks with
    | none => some k
    | some m => if m.lastUpdated < k.lastUpdated then some m else some k

/-- `APIKeyManager.get_api_key(email=None)` of the PostgreSQL manager:
filter rows with `status='active'` and `remaining_quota > 0`, order by
`last_updated` ascending, take the first. -/
def getApiKeyPgNoEmail (keys : List PgApiKey) : Option PgApiKey :=
  firstByLastUpdated (keys.filter pgQualifies)

/-! ### Lemmas about the credential definitions -/

theorem useQuota_remaining_nonneg (k : ApiKeyState) (amount : Int) (now : Nat)
    (h : 0 ≤ k.remaining) : 0 ≤ (useQuota k amount now).2.remaining := by
  unfold useQuota
  by_cases hlt : k.remaining < amount
  · simpa [hlt] using h
  · simp only [hlt, if_false]
    show 0 ≤ k.remaining - amount
    omega

theorem useQuotaSeq_nonneg (charges : List (Int × Nat)) (k : ApiKeyState)
    (h : 0 ≤ k.remaining) : 0 ≤ (useQuotaSeq k charges).remaining := by
  induction charges generalizing k with
  | nil => exact h
  | cons c rest ih =>
    exact ih _ (useQuota_remaining_nonneg k c.1 c.2 h)

theorem firstByLastUpdated_spec (l : List PgApiKey) :
    (firstByLastUpdated l = none → l = []) ∧
    (∀ m, firstByLastUpdated l = some m →
      m ∈ l ∧ ∀ j ∈ l, m.lastUpdated ≤ j.lastUpdated) := by
  induction l with
  | nil => simp [firstByLastUpdated]
  | cons k ks ih =>
    constructor
    · intro h
      exfalso
      unfold firstByLastUpdated at h
      cases hrec : firstByLastUpdated ks with
      | none => simp [hrec] at h
      | some m => rw [hrec] at h; by_cases hc : m.lastUpdated < k.lastUpdated <;> simp [hc] at h
    · intro m hm
      unfold firstByLastUpdated at hm
      cases hrec : firstByLastUpdated ks with
      | none =>
        rw [hrec] at hm
        have hks : ks = [] := ih.1 hrec
        simp only [Option.some.injEq] at hm
        subst hm
        subst hks
        simp
      | some mk =>
        rw [hrec] at hm
        have hrecspec := ih.2 mk hrec
        by_cases hc : mk.lastUpdated < k.lastUpdated
        · simp only [hc, if_true, Option.some.injEq] at hm
          subst hm
          refine ⟨List.mem_cons_of_mem _ hrecspec.1, ?_⟩
          intro j hj
          rcases List.mem_cons.mp hj with hj | hj
          · subst hj; omega
          · exact hrecspec.2 j hj
        · simp only [hc, if_false, Option.some.injEq] at hm
          subst hm
          refine ⟨List.mem_cons_self _ _, ?_⟩
          intro j hj
          rcases List.mem_cons.mp hj with hj | hj
          · subst hj; omega
          · have := hrecspec.2 j hj; omega

/-! ### Claim theorems: C1 and C3 -/

/-- C1 counterexample: the Mongo `APIKeyManager.update_quota` decrements
unconditionally, so a charge of cost 10 against a credential with remaining
budget 5 is not rejected: it returns `True` and drives the remaining budget
to `-5`, contradicting the claim that such a charge returns false and leaves
the budget unchanged. -/
theorem mongoUpdateQuota_overspends :
    mongoUpdateQuota [⟨"k1", 5, "active", 0⟩] "k1" 10 1 =
      (true, [⟨"k1", -5, "unactive", 1⟩]) ∧
    (mongoUpdateQuota [⟨"k1", 5, "active", 0⟩] "k1" 10 1).2.head?.map
      MongoApiKeyDoc.remaining = some (-5) := by
  constructor <;> rfl

/-- C1 (amended): via `YouTubeApiKey.use_quota` (used by the PostgreSQL
manager's `update_quota`), the remaining budget never goes negative across
any sequence of charges starting from a nonnegative budget, and a charge
whose cost exceeds the current remaining budget returns false and leaves
the state unchanged.  The Mongo manager's `update_quota` has no such guard
and can drive the budget negative. -/
theorem useQuota_budget_invariant (k : ApiKeyState) (charges : List (Int × Nat))
    (amount : Int) (now : Nat) (h : 0 ≤ k.remaining) (hlt : k.remaining < amount) :
    0 ≤ (useQuotaSeq k charges).remaining ∧ useQuota k amount now = (false, k) := by
  refine ⟨useQuotaSeq_nonneg charges k h, ?_⟩
  unfold useQuota
  simp [hlt]

/-- C1 witness: concrete instantiation of `useQuota_budget_invariant`. -/
theorem useQuota_budget_invariant_witness :
    0 ≤ (ApiKeyState.mk 10 "active" 0).remaining ∧
    (ApiKeyState.mk 10 "active" 0).remaining < 11 ∧
    (0 ≤ (useQuotaSeq (ApiKeyState.mk 10 "active" 0) [(3, 1), (100, 2), (7, 3)]).remaining ∧
      useQuota (ApiKeyState.mk 10 "active" 0) 11 5 = (false, ApiKeyState.mk 10 "active" 0)) :=
  ⟨by decide, by decide,
    useQuota_budget_invariant (ApiKeyState.mk 10 "active" 0) [(3, 1), (100, 2), (7, 3)]
      11 5 (by decide) (by decide)⟩

/-- C3 counterexample: the Mongo `APIKeyManager.get_api_key` with no email
returns the first active document in collection order, not the
least-recently-used one: with key "a" (last_updated 10) stored before key
"b" (last_updated 5), both active with positive quota, it returns "a"
although "b" is strictly less recently used. -/
theorem mongoGetApiKey_not_lru :
    mongoGetApiKeyNoEmail [⟨"a", 100, "active", 10⟩, ⟨"b", 100, "active", 5⟩] =
      some ⟨"a", 100, "active", 10⟩ ∧
    (⟨"b", 100, "active", 5⟩ : MongoApiKeyDoc) ∈
      [⟨"a", 100, "active", 10⟩, ⟨"b", 100, "active", 5⟩] ∧
    (MongoApiKeyDoc.mk "b" 100 "active" 5).status = "active" ∧
    0 < (MongoApiKeyDoc.mk "b" 100 "active" 5).remaining ∧
    (MongoApiKeyDoc.mk "b" 100 "active" 5).lastUpdated <
      (MongoApiKeyDoc.mk "a" 100 "active" 10).lastUpdated := by
  refine ⟨rfl, ?_, rfl, by decide, by decide⟩
  simp

/-- C3 (amended): the PostgreSQL `APIKeyManager.get_api_key` with no email
returns a credential with `status='active'` and `remaining_quota > 0` whose
`last_updated` is minimal among all qualifying credentials, and returns
`None` exactly when no credential qualifies.  The Mongo utils manager
instead returns the first active document in collection order, ignoring
quota and recency. -/
theorem getApiKeyPgNoEmail_lru (keys : List PgApiKey) :
    (match getApiKeyPgNoEmail keys with
     | none => ∀ j ∈ keys, pgQualifies j = false
     | some k => k ∈ keys ∧ pgQualifies k = true ∧
         ∀ j ∈ keys, pgQualifies j = true → k.lastUpdated ≤ j.lastUpdated) := by
  unfold getApiKeyPgNoEmail
  cases h : firstByLastUpdated (keys.filter pgQualifies) with
  | none =>
    have hnil := (firstByLastUpdated_spec (keys.filter pgQualifies)).1 h
    intro j hj
    by_contra hq
    have : j ∈ keys.filter pgQualifies := by
      simp only [List.mem_filter]
      exact ⟨hj, by simpa using hq⟩
    rw [hnil] at this
    simp at this
  | some k =>
    have hspec := (firstByLastUpdated_spec (keys.filter pgQualifies)).2 k h
    have hmem := List.mem_filter.mp hspec.1
    refine ⟨hmem.1, hmem.2, ?_⟩
    intro j hj hq
    exact hspec.2 j (List.mem_filter.mpr ⟨hj, hq⟩)

/-! ## Documents and bulk upserts (src/src/database/database.py):
`insert_many_videos`, `insert_many_comments`, `insert_many_channels`. -/

/-- A BSON-ish field value: Mongo null, a string, or an integer. -/
inductive BsonValue where
  | null
  | str (s : String)
  | num (n : Int)
deriving DecidableEq, Repr

/-- Python truthiness of a `dict.get(key)` result: `None` (absent), JSON
null, the empty string and zero are falsy. -/
def truthy : Option BsonValue → Bool
  | none => false
  | some .null => false
  | some (.str s) => !(s == "")
  | some (.num n) => !(n == 0)

/-- A document / record: an association list of fields.  Records built from
Python dicts have pairwise-distinct keys; lookups return the first binding. -/
abbrev Doc := List (String × BsonValue)

/-- The keys of a document. -/
def docKeys (d : Doc) : List String := d.map (·.1)

/-- Field lookup (first binding wins). -/
def getField (d : Doc) (k : String) : Option BsonValue :=
  (d.find? (fun kv => kv.1 == k)).map (·.2)

/-- Set one field: replace the first binding of `k`, or append it. -/
def setField : Doc → String → BsonValue → Doc
  | [], k, v => [(k, v)]
  | kv :: rest, k, v => if kv.1 == k then (k, v) :: rest else kv :: setField rest k v

/-- Mongo `$set` with an update document. -/
def applySet (d : Doc) (upd : Doc) : Doc :=
  upd.foldl (fun acc kv => setField acc kv.1 kv.2) d

/-- One `pymongo.UpdateOne(filter, {"$set": update}, upsert=True)` with an
equality filter on a single field. -/
structure UpdateOp where
  filterKey : String
  filterVal : BsonValue
  update : Doc
deriving DecidableEq, Repr

/-- The document a Mongo upsert inserts when no document matches: the
equality-filter fields merged with the `$set` fields. -/
def upsertedDoc (op : UpdateOp) : Doc :=
  applySet [(op.filterKey, op.filterVal)] op.update

/-- Apply one upsert `UpdateOne`: `$set` on the first document matching the
filter, or insert `upsertedDoc` when none matches.  Returns (new store,
upserted?, modified?); Mongo counts a match as modified only when the
document actually changes. -/
def applyUpdateOne : List Doc → UpdateOp → List Doc × Bool × Bool
  | [], op => ([upsertedDoc op], true, false)
  | d :: rest, op =>
    if getField d op.filterKey == some op.filterVal then
      let d' := applySet d op.update
      (d' :: rest, false, decide (d' ≠ d))
    else
      let r := applyUpdateOne rest op
      (d :: r.1, r.2.1, r.2.2)

/-- The counters of a `bulk_write` result used by the repository:
`upserted_count`, `modified_count`, and the ids of upserted documents (the
repository collects `result.upserted_ids.values()`; we identify an upserted
document by its filter value). -/
structure BulkResult where
  upsertedCount : Nat
  modifiedCount : Nat
  upsertedIds : List BsonValue
deriving DecidableEq, Repr

/-- `bulk_write(operations)`: apply each operation in turn, accumulating
the result counters. -/
def bulkWrite (store : List Doc) : List UpdateOp → List Doc × BulkResult
  | [] => (store, ⟨0, 0, []⟩)
  | op :: ops =>
    let s1 := applyUpdateOne store op
    let s2 := bulkWrite s1.1 ops
    (s2.1, ⟨(if s1.2.1 then 1 else 0) + s2.2.upsertedCount,
            (if s1.2.2 then 1 else 0) + s2.2.modifiedCount,
            (if s1.2.1 then [op.filterVal] else []) ++ s2.2.upsertedIds⟩)

/-- Result shape of `insert_many_videos` / `insert_many_channels`. -/
structure InsertManyResult where
  newCount : Nat
  updatedCount : Nat
  newIds : List BsonValue
deriving DecidableEq, Repr

/-- Result shape of `insert_many_comments` (adds error accounting). -/
structure InsertCommentsResult where
  newCount : Nat
  updatedCount : Nat
  newIds : List BsonValue
  errorCount : Nat
  errors : List String
deriving DecidableEq, Repr

/-- The update document `insert_many_videos` builds for one video: only the
non-null provided fields (`if value is not None`). -/
def nonNullFields (v : Doc) : Doc :=
  v.filter (fun kv => !(kv.2 == BsonValue.null))

/-- The operation `insert_many_videos` builds for one record: skip it when
its `videoId` is falsy; otherwise `$set` only its non-null fields. -/
def videoOpOf (v : Doc) : Option UpdateOp :=
  match getField v "videoId" with
  | some idv =>
    if truthy (some idv) then some (UpdateOp.mk "videoId" idv (nonNullFields v))
    else none
  | none => none

/-- All operations `insert_many_videos` builds. -/
def videoOps (videos : List Doc) : List UpdateOp :=
  videos.filterMap videoOpOf

/-- `Database.insert_many_videos`: early-return zeros on empty input; build
one upsert per record with a valid `videoId`, `$set`ting only its non-null
fields; report `upserted_count`, `modified_count` and the new ids. -/
def insertManyVideos (videos : List Doc) (store : List Doc) :
    InsertManyResult × List Doc :=
  if videos.isEmpty then (⟨0, 0, []⟩, store)
  else
    let ops := videoOps videos
    if ops.isEmpty then (⟨0, 0, []⟩, store)
    else
      let r := bulkWrite store ops
      (⟨r.2.upsertedCount, r.2.modifiedCount, r.2.upsertedIds⟩, r.1)

/-- The operation `insert_many_comments` builds for one record: an upsert
that `$set`s the FULL provided document (nulls included). -/
def commentOpOf (c : Doc) : Option UpdateOp :=
  match getField c "commentId" with
  | some idv =>
    if truthy (some idv) then some (UpdateOp.mk "commentId" idv c)
    else none
  | none => none

/-- All operations `insert_many_comments` builds. -/
def commentOps (comments : List Doc) : List UpdateOp :=
  comments.filterMap commentOpOf

/-- `Database.insert_many_comments`: early-return zeros on empty input;
records with a falsy `commentId` are counted as errors; the update document
is the full provided record. -/
def insertManyComments (comments : List Doc) (store : List Doc) :
    InsertCommentsResult × List Doc :=
  if comments.isEmpty then (⟨0, 0, [], 0, []⟩, store)
  else
    let bad := comments.filter (fun c => !truthy (getField c "commentId"))
    let ops := commentOps comments
    if ops.isEmpty then (⟨0, 0, [], bad.length, bad.map (fun _ => "Comment missing commentId")⟩, store)
    else
      let r := bulkWrite store ops
      (⟨r.2.upsertedCount, r.2.modifiedCount, r.2.upsertedIds,
        bad.length, bad.map (fun _ => "Comment missing commentId")⟩, r.1)

/-- The operation `insert_many_channels` builds for one record: an upsert
that `$set`s the FULL provided document (nulls included). -/
def channelOpOf (c : Doc) : Option UpdateOp :=
  match getField c "channelId" with
  | some idv =>
    if truthy (some idv) then some (UpdateOp.mk "channelId" idv c)
    else none
  | none => none

/-- All operations `insert_many_channels` builds. -/
def channelOps (channels : List Doc) : List UpdateOp :=
  channels.filterMap channelOpOf

/-- `Database.insert_many_channels`: early-return zeros on empty input;
skip records with a falsy `channelId`; the update document is the full
provided record. -/
def insertManyChannels (channels : List Doc) (store : List Doc) :
    InsertManyResult × List Doc :=
  if channels.isEmpty then (⟨0, 0, []⟩, store)
  else
    let ops := channelOps channels
    if ops.isEmpty then (⟨0, 0, []⟩, store)
    else
      let r := bulkWrite store ops
      (⟨r.2.upsertedCount, r.2.modifiedCount, r.2.upsertedIds⟩, r.1)

/-! ### Lemmas about documents and `$set` -/

theorem getField_cons (kv : String × BsonValue) (l : Doc) (k : String) :
    getField (kv :: l) k = if kv.1 == k then some kv.2 else getField l k := by
  by_cases h : kv.1 == k <;> simp [getField, List.find?_cons, h]

theorem applySet_nil (d : Doc) : applySet d [] = d := rfl

theorem applySet_cons (d : Doc) (kv : String × BsonValue) (upd : Doc) :
    applySet d (kv :: upd) = applySet (setField d kv.1 kv.2) upd := rfl

theorem getField_setField_self (d : Doc) (k : String) (v : BsonValue) :
    getField (setField d k v) k = some v := by
  induction d with
  | nil => simp [setField, getField]
  | cons kv rest ih =>
    by_cases h : kv.1 == k
    · simp [setField, h, getField_cons]
    · simp [setField, h, getField_cons, ih]

theorem getField_setField_ne (d : Doc) (k' k : String) (v : BsonValue)
    (h : k' ≠ k) : getField (setField d k' v) k = getField d k := by
  induction d with
  | nil => simp [setField, getField, h]
  | cons kv rest ih =>
    by_cases hh : kv.1 == k'
    · simp only [setField, hh, if_true]
      rw [getField_cons, getField_cons]
      have : (kv.1 == k) = false := by
        have : kv.1 = k' := by simpa using hh
        simp [this, h]
      simp [this, h]
    · simp [setField, hh, getField_cons, ih]

theorem getField_applySet_of_not_mem (upd : Doc) (d : Doc) (k : String)
    (h : ∀ kv ∈ upd, kv.1 ≠ k) : getField (applySet d upd) k = getField d k := by
  induction upd generalizing d with
  | nil => rfl
  | cons kv rest ih =>
    rw [applySet_cons, ih _ (fun kv' h' => h kv' (List.mem_cons_of_mem _ h')),
      getField_setField_ne _ _ _ _ (h kv (List.mem_cons_self _ _))]

theorem getField_applySet_of_mem (upd : Doc) (d : Doc) (kv : String × BsonValue)
    (hnd : (docKeys upd).Nodup) (hmem : kv ∈ upd) :
    getField (applySet d upd) kv.1 = some kv.2 := by
  induction upd generalizing d with
  | nil => simp at hmem
  | cons kv0 rest ih =>
    rw [applySet_cons]
    rcases List.mem_cons.mp hmem with h | h
    · subst h
      have hnot : ∀ kv' ∈ rest, kv'.1 ≠ kv.1 := by
        intro kv' h' hEq
        have : kv.1 ∉ rest.map Prod.fst := (List.nodup_cons.mp hnd).1
        exact this (hEq ▸ List.mem_map_of_mem _ h')
      rw [getField_applySet_of_not_mem _ _ _ hnot, getField_setField_self]
    · exact ih _ (List.nodup_cons.mp hnd).2 h

theorem setField_self_of_getField (d : Doc) (k : String) (v : BsonValue)
    (h : getField d k = some v) : setField d k v = d := by
  induction d with
  | nil => simp [getField] at h
  | cons kv rest ih =>
    rw [getField_cons] at h
    by_cases hh : kv.1 == k
    · have hk : kv.1 = k := by simpa using hh
      simp only [hh, if_true, Option.some.injEq] at h
      simp [setField, hh, ← h, ← hk]
    · simp only [hh, if_false] at h
      simp [setField, hh, ih h]

theorem applySet_self (upd : Doc) (d : Doc)
    (h : ∀ kv ∈ upd, getField d kv.1 = some kv.2) : applySet d upd = d := by
  induction upd generalizing d with
  | nil => rfl
  | cons kv rest ih =>
    rw [applySet_cons, setField_self_of_getField _ _ _ (h kv (List.mem_cons_self _ _))]
    exact ih _ (fun kv' h' => h kv' (List.mem_cons_of_mem _ h'))

theorem getField_eq_none_forall (d : Doc) (k : String)
    (h : getField d k = none) : ∀ kv ∈ d, kv.1 ≠ k := by
  intro kv hmem hEq
  have hf : d.find? (fun kv => kv.1 == k) = none := by
    unfold getField at h
    cases hfind : d.find? (fun kv => kv.1 == k) with
    | none => rfl
    | some x => rw [hfind] at h; simp at h
  have := List.find?_eq_none.mp hf kv hmem
  simp [hEq] at this

theorem getField_of_mem_nodupKeys (d : Doc) (kv : String × BsonValue)
    (hnd : (docKeys d).Nodup) (hmem : kv ∈ d) :
    getField d kv.1 = some kv.2 := by
  induction d with
  | nil => simp at hmem
  | cons kv0 rest ih =>
    rw [getField_cons]
    rcases List.mem_cons.mp hmem with h | h
    · subst h; simp
    · have hne : (kv0.1 == kv.1) = false := by
        have : kv0.1 ∉ rest.map Prod.fst := (List.nodup_cons.mp hnd).1
        by_contra hc
        simp only [Bool.not_eq_false, beq_iff_eq] at hc
        exact this (hc ▸ List.mem_map_of_mem _ h)
      simp only [hne, if_false]
      exact ih (List.nodup_cons.mp hnd).2 h

/-! ### Lemmas about `bulk_write` with upserts -/

/-- Well-formedness of an upsert operation keyed on `k`, as produced by the
`insert_many_*` functions: the filter key is `k`, the update document has
pairwise-distinct keys (it comes from a Python dict), and its `k` field, if
present, agrees with the filter value. -/
def opWf (k : String) (op : UpdateOp) : Prop :=
  op.filterKey = k ∧ (docKeys op.update).Nodup ∧
    (getField op.update k = some op.filterVal ∨ getField op.update k = none)

theorem getField_upsertedDoc (k : String) (op : UpdateOp) (h : opWf k op) :
    getField (upsertedDoc op) k = some op.filterVal := by
  obtain ⟨hk, hnd, hor⟩ := h
  unfold upsertedDoc
  rcases hor with hsome | hnone
  · rw [hk]
    cases hfind : op.update.find? (fun kv => kv.1 == k) with
    | none => unfold getField at hsome; rw [hfind] at hsome; simp at hsome
    | some kv =>
      have hmem := List.mem_of_find?_eq_some hfind
      have hkey : kv.1 = k := by
        have := List.find?_some hfind
        simpa using this
      have hval : kv.2 = op.filterVal := by
        unfold getField at hsome
        rw [hfind] at hsome
        simpa using hsome
      rw [← hkey, ← hval]
      exact getField_applySet_of_mem _ _ _ hnd hmem
  · rw [hk, getField_applySet_of_not_mem _ _ _ (getField_eq_none_forall _ _ hnone),
      getField_cons]
    simp

theorem applySet_upsertedDoc_self (k : String) (op : UpdateOp) (h : opWf k op) :
    applySet (upsertedDoc op) op.update = upsertedDoc op := by
  refine applySet_self _ _ (fun kv hkv => ?_)
  exact getField_applySet_of_mem _ _ _ h.2.1 hkv

theorem applyUpdateOne_no_match (store : List Doc) (op : UpdateOp)
    (h : ∀ d ∈ store, getField d op.filterKey ≠ some op.filterVal) :
    applyUpdateOne store op = (store ++ [upsertedDoc op], true, false) := by
  induction store with
  | nil => rfl
  | cons d rest ih =>
    have hd : (getField d op.filterKey == some op.filterVal) = false := by
      simpa using h d (List.mem_cons_self _ _)
    simp only [applyUpdateOne, hd]
    rw [ih (fun d' h' => h d' (List.mem_cons_of_mem _ h'))]
    simp

theorem applyUpdateOne_fixed (pre post : List Doc) (d : Doc) (op : UpdateOp)
    (hpre : ∀ d' ∈ pre, getField d' op.filterKey ≠ some op.filterVal)
    (hd : getField d op.filterKey = some op.filterVal)
    (hfix : applySet d op.update = d) :
    applyUpdateOne (pre ++ d :: post) op = (pre ++ d :: post, false, false) := by
  induction pre with
  | nil =>
    simp only [List.nil_append, applyUpdateOne, hd]
    simp [hfix]
  | cons p rest ih =>
    have hp : (getField p op.filterKey == some op.filterVal) = false := by
      simpa using hpre p (List.mem_cons_self _ _)
    have hrec := ih (fun d' h' => hpre d' (List.mem_cons_of_mem _ h'))
    simp only [List.cons_append, applyUpdateOne, hp, List.append_eq]
    rw [hrec]
    simp

theorem bulkWrite_stable (ops : List UpdateOp) (store : List Doc)
    (h : ∀ op ∈ ops, applyUpdateOne store op = (store, false, false)) :
    bulkWrite store ops = (store, ⟨0, 0, []⟩) := by
  induction ops with
  | nil => rfl
  | cons op rest ih =>
    simp only [bulkWrite, h op (List.mem_cons_self _ _)]
    rw [ih (fun op' h' => h op' (List.mem_cons_of_mem _ h'))]
    simp

theorem bulkWrite_all_fresh (k : String) (ops : List UpdateOp) (store : List Doc)
    (hwf : ∀ op ∈ ops, opWf k op)
    (hnd : (ops.map UpdateOp.filterVal).Nodup)
    (hfresh : ∀ op ∈ ops, ∀ d ∈ store, getField d k ≠ some op.filterVal) :
    bulkWrite store ops =
      (store ++ ops.map upsertedDoc, ⟨ops.length, 0, ops.map UpdateOp.filterVal⟩) := by
  induction ops generalizing store with
  | nil => simp [bulkWrite]
  | cons op rest ih =>
    have hkop : op.filterKey = k := (hwf op (List.mem_cons_self _ _)).1
    have hno : ∀ d ∈ store, getField d op.filterKey ≠ some op.filterVal := by
      rw [hkop]; exact hfresh op (List.mem_cons_self _ _)
    simp only [bulkWrite, applyUpdateOne_no_match store op hno]
    have hfresh' : ∀ op' ∈ rest, ∀ d ∈ store ++ [upsertedDoc op],
        getField d k ≠ some op'.filterVal := by
      intro op' hop' d hd
      rcases List.mem_append.mp hd with hmem | hmem
      · exact hfresh op' (List.mem_cons_of_mem _ hop') d hmem
      · have : d = upsertedDoc op := by simpa using hmem
        subst this
        rw [getField_upsertedDoc k op (hwf op (List.mem_cons_self _ _))]
        intro hEq
        have hvalEq : op.filterVal = op'.filterVal := by simpa using hEq
        have : op.filterVal ∉ rest.map UpdateOp.filterVal := (List.nodup_cons.mp hnd).1
        exact this (hvalEq ▸ List.mem_map_of_mem _ hop')
    rw [ih (store ++ [upsertedDoc op]) (fun op' h' => hwf op' (List.mem_cons_of_mem _ h'))
      (List.nodup_cons.mp hnd).2 hfresh']
    simp
    omega

theorem applyUpdateOne_mapUpserted (k : String) (ops : List UpdateOp) (op : UpdateOp)
    (hwf : ∀ o ∈ ops, opWf k o)
    (hnd : (ops.map UpdateOp.filterVal).Nodup)
    (hmem : op ∈ ops) :
    applyUpdateOne (ops.map upsertedDoc) op = (ops.map upsertedDoc, false, false) := by
  induction ops with
  | nil => simp at hmem
  | cons op0 rest ih =>
    have hwf0 := hwf op0 (List.mem_cons_self _ _)
    rcases List.mem_cons.mp hmem with h | h
    · subst h
      have hmatch : (getField (upsertedDoc op) (op.filterKey) == some op.filterVal) = true := by
        have := getField_upsertedDoc k op hwf0
        rw [hwf0.1]
        simp [this]
      simp only [List.map_cons, applyUpdateOne, hmatch, if_true]
      rw [applySet_upsertedDoc_self k op hwf0]
      simp
    · have hne : (getField (upsertedDoc op0) (op.filterKey) == some op.filterVal) = false := by
        rw [(hwf op (List.mem_cons_of_mem _ h)).1, getField_upsertedDoc k op0 hwf0]
        have : op0.filterVal ∉ rest.map UpdateOp.filterVal := (List.nodup_cons.mp hnd).1
        have hneq : op0.filterVal ≠ op.filterVal := by
          intro hEq
          exact this (hEq ▸ List.mem_map_of_mem _ h)
        simpa using hneq
      simp only [List.map_cons, applyUpdateOne, hne]
      rw [ih (fun o ho => hwf o (List.mem_cons_of_mem _ ho)) (List.nodup_cons.mp hnd).2 h]
      simp

theorem applyUpdateOne_match (pre post : List Doc) (d : Doc) (op : UpdateOp)
    (hpre : ∀ d' ∈ pre, getField d' op.filterKey ≠ some op.filterVal)
    (hd : getField d op.filterKey = some op.filterVal) :
    applyUpdateOne (pre ++ d :: post) op =
      (pre ++ applySet d op.update :: post, false,
        decide (applySet d op.update ≠ d)) := by
  induction pre with
  | nil => simp [applyUpdateOne, hd]
  | cons p rest ih =>
    have hp : (getField p op.filterKey == some op.filterVal) = false := by
      simpa using hpre p (List.mem_cons_self _ _)
    have hrec := ih (fun d' h' => hpre d' (List.mem_cons_of_mem _ h'))
    simp only [List.cons_append, applyUpdateOne, hp, List.append_eq]
    rw [hrec]
    simp

/-! ### Lemmas about the operation builders -/

theorem truthy_ne_null (idv : BsonValue) (h : truthy (some idv) = true) :
    idv ≠ BsonValue.null := by
  intro hEq; subst hEq; simp [truthy] at h

theorem videoOpOf_of_valid (v : Doc) (idv : BsonValue)
    (hid : getField v "videoId" = some idv) (htr : truthy (some idv) = true) :
    videoOpOf v = some (UpdateOp.mk "videoId" idv (nonNullFields v)) := by
  unfold videoOpOf
  rw [hid]
  simp [htr]

theorem channelOpOf_of_valid (c : Doc) (idv : BsonValue)
    (hid : getField c "channelId" = some idv) (htr : truthy (some idv) = true) :
    channelOpOf c = some (UpdateOp.mk "channelId" idv c) := by
  unfold channelOpOf
  rw [hid]
  simp [htr]

theorem getField_nonNullFields (v : Doc) (k : String) (val : BsonValue)
    (hval : val ≠ BsonValue.null) (h : getField v k = some val) :
    getField (nonNullFields v) k = some val := by
  induction v with
  | nil => simp [getField] at h
  | cons kv rest ih =>
    rw [getField_cons] at h
    by_cases hk : kv.1 == k
    · simp only [hk, if_true, Option.some.injEq] at h
      have hkeep : (!(kv.2 == BsonValue.null)) = true := by
        subst h; simpa using hval
      unfold nonNullFields
      rw [List.filter_cons]
      simp only [hkeep, if_true]
      rw [getField_cons]
      simp [hk, h]
    · simp only [hk, if_false] at h
      unfold nonNullFields
      rw [List.filter_cons]
      by_cases hkeep : (!(kv.2 == BsonValue.null)) = true
      · simp only [hkeep, if_true]
        rw [getField_cons]
        simp only [hk, if_false]
        exact ih h
      · rw [if_neg hkeep]
        exact ih h

theorem docKeys_nonNullFields_nodup (v : Doc) (h : (docKeys v).Nodup) :
    (docKeys (nonNullFields v)).Nodup := by
  refine List.Nodup.sublist ?_ h
  exact List.Sublist.map _ (List.filter_sublist v)

theorem not_mem_nonNullFields_key (v : Doc) (f : String)
    (hkeys : (docKeys v).Nodup)
    (h : getField v f = some BsonValue.null ∨ getField v f = none) :
    ∀ kv ∈ nonNullFields v, kv.1 ≠ f := by
  intro kv hkv hEq
  unfold nonNullFields at hkv
  have hvmem : kv ∈ v := (List.mem_filter.mp hkv).1
  have hval : (!(kv.2 == BsonValue.null)) = true := (List.mem_filter.mp hkv).2
  rcases h with h | h
  · have hget := getField_of_mem_nodupKeys v kv hkeys hvmem
    rw [hEq, h] at hget
    have : kv.2 = BsonValue.null := by simpa using hget.symm
    rw [this] at hval
    simp at hval
  · exact getField_eq_none_forall v f h kv hvmem hEq

theorem opWf_videoOp (v : Doc) (idv : BsonValue)
    (hid : getField v "videoId" = some idv) (htr : truthy (some idv) = true)
    (hkeys : (docKeys v).Nodup) :
    opWf "videoId" (UpdateOp.mk "videoId" idv (nonNullFields v)) := by
  refine ⟨rfl, docKeys_nonNullFields_nodup v hkeys, Or.inl ?_⟩
  exact getField_nonNullFields v _ idv (truthy_ne_null idv htr) hid

theorem opWf_channelOp (c : Doc) (idv : BsonValue)
    (hid : getField c "channelId" = some idv)
    (hkeys : (docKeys c).Nodup) :
    opWf "channelId" (UpdateOp.mk "channelId" idv c) :=
  ⟨rfl, hkeys, Or.inl hid⟩

theorem videoOps_map (videos : List Doc)
    (h : ∀ v ∈ videos, truthy (getField v "videoId") = true) :
    videoOps videos = videos.map (fun v =>
      UpdateOp.mk "videoId" ((getField v "videoId").getD BsonValue.null)
        (nonNullFields v)) := by
  induction videos with
  | nil => rfl
  | cons v rest ih =>
    have hv := h v (List.mem_cons_self _ _)
    have hrest := ih (fun v' h' => h v' (List.mem_cons_of_mem _ h'))
    cases hg : getField v "videoId" with
    | none => rw [hg] at hv; simp [truthy] at hv
    | some idv =>
      rw [hg] at hv
      unfold videoOps at hrest ⊢
      rw [List.filterMap_cons, videoOpOf_of_valid v idv hg hv, hrest]
      simp [hg]

theorem channelOps_map (channels : List Doc)
    (h : ∀ c ∈ channels, truthy (getField c "channelId") = true) :
    channelOps channels = channels.map (fun c =>
      UpdateOp.mk "channelId" ((getField c "channelId").getD BsonValue.null) c) := by
  induction channels with
  | nil => rfl
  | cons c rest ih =>
    have hv := h c (List.mem_cons_self _ _)
    have hrest := ih (fun c' h' => h c' (List.mem_cons_of_mem _ h'))
    cases hg : getField c "channelId" with
    | none => rw [hg] at hv; simp [truthy] at hv
    | some idv =>
      rw [hg] at hv
      unfold channelOps at hrest ⊢
      rw [List.filterMap_cons, channelOpOf_of_valid c idv hg hv, hrest]
      simp [hg]

theorem videoOps_filterVal_nodup (videos : List Doc)
    (ha : ∀ v ∈ videos, truthy (getField v "videoId") = true)
    (hc : (videos.map (fun v => getField v "videoId")).Nodup) :
    ((videoOps videos).map UpdateOp.filterVal).Nodup := by
  rw [videoOps_map videos ha, List.map_map]
  have hcomp : (UpdateOp.filterVal ∘ fun v =>
      UpdateOp.mk "videoId" ((getField v "videoId").getD BsonValue.null) (nonNullFields v))
      = (fun o => o.getD BsonValue.null) ∘ (fun v => getField v "videoId") := rfl
  rw [hcomp, ← List.map_map]
  refine List.Nodup.map_on ?_ hc
  intro x hx y hy hEq
  obtain ⟨vx, hvx, rfl⟩ := List.mem_map.mp hx
  obtain ⟨vy, hvy, rfl⟩ := List.mem_map.mp hy
  cases hgx : getField vx "videoId" with
  | none => have := ha vx hvx; rw [hgx] at this; simp [truthy] at this
  | some a =>
    cases hgy : getField vy "videoId" with
    | none => have := ha vy hvy; rw [hgy] at this; simp [truthy] at this
    | some b =>
      rw [hgx, hgy] at hEq
      simp only [Option.getD_some] at hEq
      rw [hEq]

theorem channelOps_filterVal_nodup (channels : List Doc)
    (ha : ∀ c ∈ channels, truthy (getField c "channelId") = true)
    (hc : (channels.map (fun c => getField c "channelId")).Nodup) :
    ((channelOps channels).map UpdateOp.filterVal).Nodup := by
  rw [channelOps_map channels ha, List.map_map]
  have hcomp : (UpdateOp.filterVal ∘ fun c =>
      UpdateOp.mk "channelId" ((getField c "channelId").getD BsonValue.null) c)
      = (fun o => o.getD BsonValue.null) ∘ (fun c => getField c "channelId") := rfl
  rw [hcomp, ← List.map_map]
  refine List.Nodup.map_on ?_ hc
  intro x hx y hy hEq
  obtain ⟨vx, hvx, rfl⟩ := List.mem_map.mp hx
  obtain ⟨vy, hvy, rfl⟩ := List.mem_map.mp hy
  cases hgx : getField vx "channelId" with
  | none => have := ha vx hvx; rw [hgx] at this; simp [truthy] at this
  | some a =>
    cases hgy : getField vy "channelId" with
    | none => have := ha vy hvy; rw [hgy] at this; simp [truthy] at this
    | some b =>
      rw [hgx, hgy] at hEq
      simp only [Option.getD_some] at hEq
      rw [hEq]

theorem videoOps_wf (videos : List Doc)
    (ha : ∀ v ∈ videos, truthy (getField v "videoId") = true)
    (hb : ∀ v ∈ videos, (docKeys v).Nodup) :
    ∀ op ∈ videoOps videos, opWf "videoId" op := by
  intro op hop
  rw [videoOps_map videos ha] at hop
  obtain ⟨v, hv, rfl⟩ := List.mem_map.mp hop
  cases hg : getField v "videoId" with
  | none => have := ha v hv; rw [hg] at this; simp [truthy] at this
  | some idv =>
    have htr := ha v hv
    rw [hg] at htr
    have := opWf_videoOp v idv hg htr (hb v hv)
    simpa [hg] using this

theorem channelOps_wf (channels : List Doc)
    (ha : ∀ c ∈ channels, truthy (getField c "channelId") = true)
    (hb : ∀ c ∈ channels, (docKeys c).Nodup) :
    ∀ op ∈ channelOps channels, opWf "channelId" op := by
  intro op hop
  rw [channelOps_map channels ha] at hop
  obtain ⟨c, hc, rfl⟩ := List.mem_map.mp hop
  cases hg : getField c "channelId" with
  | none => have := ha c hc; rw [hg] at this; simp [truthy] at this
  | some idv =>
    have := opWf_channelOp c idv hg (hb c hc)
    simpa [hg] using this

theorem insertManyVideos_bulk (videos store : List Doc) (h : videoOps videos ≠ []) :
    insertManyVideos videos store =
      (⟨(bulkWrite store (videoOps videos)).2.upsertedCount,
        (bulkWrite store (videoOps videos)).2.modifiedCount,
        (bulkWrite store (videoOps videos)).2.upsertedIds⟩,
       (bulkWrite store (videoOps videos)).1) := by
  have hv : videos ≠ [] := by
    intro hEq
    subst hEq
    exact h rfl
  have h1 : videos.isEmpty = false := by
    cases videos with
    | nil => exact absurd rfl hv
    | cons a l => rfl
  have h2 : (videoOps videos).isEmpty = false := by
    cases hop : videoOps videos with
    | nil => exact absurd hop h
    | cons a l => rfl
  simp [insertManyVideos, h1, h2]

theorem insertManyChannels_bulk (channels store : List Doc) (h : channelOps channels ≠ []) :
    insertManyChannels channels store =
      (⟨(bulkWrite store (channelOps channels)).2.upsertedCount,
        (bulkWrite store (channelOps channels)).2.modifiedCount,
        (bulkWrite store (channelOps channels)).2.upsertedIds⟩,
       (bulkWrite store (channelOps channels)).1) := by
  have hv : channels ≠ [] := by
    intro hEq
    subst hEq
    exact h rfl
  have h1 : channels.isEmpty = false := by
    cases channels with
    | nil => exact absurd rfl hv
    | cons a l => rfl
  have h2 : (channelOps channels).isEmpty = false := by
    cases hop : channelOps channels with
    | nil => exact absurd hop h
    | cons a l => rfl
  simp [insertManyChannels, h1, h2]

theorem insertManyVideos_first (vids : List Doc)
    (ha : ∀ v ∈ vids, truthy (getField v "videoId") = true)
    (hb : ∀ v ∈ vids, (docKeys v).Nodup)
    (hc : (vids.map (fun v => getField v "videoId")).Nodup) :
    insertManyVideos vids [] =
      (⟨vids.length, 0, (videoOps vids).map UpdateOp.filterVal⟩,
       (videoOps vids).map upsertedDoc) := by
  by_cases hnil : vids = []
  · subst hnil; rfl
  · have hne : videoOps vids ≠ [] := by
      rw [videoOps_map vids ha]
      simpa using hnil
    rw [insertManyVideos_bulk vids [] hne,
      bulkWrite_all_fresh "videoId" (videoOps vids) [] (videoOps_wf vids ha hb)
        (videoOps_filterVal_nodup vids ha hc) (by intro op _ d hd; simp at hd)]
    have hlen : (videoOps vids).length = vids.length := by
      rw [videoOps_map vids ha]; simp
    simp [hlen]

theorem insertManyChannels_first (chans : List Doc)
    (ha : ∀ c ∈ chans, truthy (getField c "channelId") = true)
    (hb : ∀ c ∈ chans, (docKeys c).Nodup)
    (hc : (chans.map (fun c => getField c "channelId")).Nodup) :
    insertManyChannels chans [] =
      (⟨chans.length, 0, (channelOps chans).map UpdateOp.filterVal⟩,
       (channelOps chans).map upsertedDoc) := by
  by_cases hnil : chans = []
  · subst hnil; rfl
  · have hne : channelOps chans ≠ [] := by
      rw [channelOps_map chans ha]
      simpa using hnil
    rw [insertManyChannels_bulk chans [] hne,
      bulkWrite_all_fresh "channelId" (channelOps chans) [] (channelOps_wf chans ha hb)
        (channelOps_filterVal_nodup chans ha hc) (by intro op _ d hd; simp at hd)]
    have hlen : (channelOps chans).length = chans.length := by
      rw [channelOps_map chans ha]; simp
    simp [hlen]

theorem insertManyVideos_second (vids : List Doc)
    (ha : ∀ v ∈ vids, truthy (getField v "videoId") = true)
    (hb : ∀ v ∈ vids, (docKeys v).Nodup)
    (hc : (vids.map (fun v => getField v "videoId")).Nodup) :
    insertManyVideos vids ((videoOps vids).map upsertedDoc) =
      (⟨0, 0, []⟩, (videoOps vids).map upsertedDoc) := by
  by_cases hnil : vids = []
  · subst hnil; rfl
  · have hne : videoOps vids ≠ [] := by
      rw [videoOps_map vids ha]
      simpa using hnil
    rw [insertManyVideos_bulk _ _ hne,
      bulkWrite_stable _ _ (fun op hop => applyUpdateOne_mapUpserted "videoId"
        (videoOps vids) op (videoOps_wf vids ha hb)
        (videoOps_filterVal_nodup vids ha hc) hop)]

theorem insertManyChannels_second (chans : List Doc)
    (ha : ∀ c ∈ chans, truthy (getField c "channelId") = true)
    (hb : ∀ c ∈ chans, (docKeys c).Nodup)
    (hc : (chans.map (fun c => getField c "channelId")).Nodup) :
    insertManyChannels chans ((channelOps chans).map upsertedDoc) =
      (⟨0, 0, []⟩, (channelOps chans).map upsertedDoc) := by
  by_cases hnil : chans = []
  · subst hnil; rfl
  · have hne : channelOps chans ≠ [] := by
      rw [channelOps_map chans ha]
      simpa using hnil
    rw [insertManyChannels_bulk _ _ hne,
      bulkWrite_stable _ _ (fun op hop => applyUpdateOne_mapUpserted "channelId"
        (channelOps chans) op (channelOps_wf chans ha hb)
        (channelOps_filterVal_nodup chans ha hc) hop)]

theorem map_getField_mapUpserted (k : String) (ops : List UpdateOp)
    (hwf : ∀ op ∈ ops, opWf k op) :
    (ops.map upsertedDoc).map (fun d => getField d k) =
      (ops.map UpdateOp.filterVal).map Option.some := by
  rw [List.map_map, List.map_map]
  induction ops with
  | nil => rfl
  | cons op rest ih =>
    simp only [List.map_cons, Function.comp]
    rw [getField_upsertedDoc k op (hwf op (List.mem_cons_self _ _))]
    have := ih (fun o ho => hwf o (List.mem_cons_of_mem _ ho))
    simp only [Function.comp] at this
    rw [this]

/-! ### Claim theorems: C4, C5 and C10 -/

/-- C4: `insert_many_videos` / `insert_many_channels` are idempotent and
deduplicating.  Over an empty store, a batch of records with valid,
pairwise-distinct external ids inserts all of them (`upserted_count = N`,
`modified_count = 0`); the identical second call inserts and modifies
nothing and leaves the store unchanged; after every prefix of the first
call's operations the store holds no two documents with the same external
id, and every operation of the second call leaves the store untouched. -/
theorem upsertMany_idempotent_dedup
    (vids chans : List Doc)
    (hva : ∀ v ∈ vids, truthy (getField v "videoId") = true)
    (hvb : ∀ v ∈ vids, (docKeys v).Nodup)
    (hvc : (vids.map (fun v => getField v "videoId")).Nodup)
    (hca : ∀ c ∈ chans, truthy (getField c "channelId") = true)
    (hcb : ∀ c ∈ chans, (docKeys c).Nodup)
    (hcc : (chans.map (fun c => getField c "channelId")).Nodup) :
    (insertManyVideos vids []).1.newCount = vids.length ∧
    (insertManyVideos vids []).1.updatedCount = 0 ∧
    (insertManyVideos vids (insertManyVideos vids []).2).1.newCount = 0 ∧
    (insertManyVideos vids (insertManyVideos vids []).2).1.updatedCount = 0 ∧
    (insertManyVideos vids (insertManyVideos vids []).2).2 = (insertManyVideos vids []).2 ∧
    (∀ pre suf, vids = pre ++ suf →
      (((insertManyVideos pre []).2).map (fun d => getField d "videoId")).Nodup) ∧
    (∀ op ∈ videoOps vids,
      applyUpdateOne (insertManyVideos vids []).2 op =
        ((insertManyVideos vids []).2, false, false)) ∧
    (insertManyChannels chans []).1.newCount = chans.length ∧
    (insertManyChannels chans []).1.updatedCount = 0 ∧
    (insertManyChannels chans (insertManyChannels chans []).2).1.newCount = 0 ∧
    (insertManyChannels chans (insertManyChannels chans []).2).1.updatedCount = 0 ∧
    (insertManyChannels chans (insertManyChannels chans []).2).2 =
      (insertManyChannels chans []).2 ∧
    (∀ pre suf, chans = pre ++ suf →
      (((insertManyChannels pre []).2).map (fun d => getField d "channelId")).Nodup) ∧
    (∀ op ∈ channelOps chans,
      applyUpdateOne (insertManyChannels chans []).2 op =
        ((insertManyChannels chans []).2, false, false)) := by
  have hv1 := insertManyVideos_first vids hva hvb hvc
  have hv2 := insertManyVideos_second vids hva hvb hvc
  have hk1 := insertManyChannels_first chans hca hcb hcc
  have hk2 := insertManyChannels_second chans hca hcb hcc
  have hvs : (insertManyVideos vids []).2 = (videoOps vids).map upsertedDoc := by
    rw [hv1]
  have hks : (insertManyChannels chans []).2 = (channelOps chans).map upsertedDoc := by
    rw [hk1]
  refine ⟨?_, ?_, ?_, ?_, ?_, ?_, ?_, ?_, ?_, ?_, ?_, ?_, ?_, ?_⟩
  · rw [hv1]
  · rw [hv1]
  · rw [hvs, hv2]
  · rw [hvs, hv2]
  · rw [hvs, hv2]
  · intro pre suf hsplit
    have ha' : ∀ v ∈ pre, truthy (getField v "videoId") = true :=
      fun v hv => hva v (hsplit ▸ List.mem_append_left _ hv)
    have hb' : ∀ v ∈ pre, (docKeys v).Nodup :=
      fun v hv => hvb v (hsplit ▸ List.mem_append_left _ hv)
    have hc' : (pre.map (fun v => getField v "videoId")).Nodup := by
      rw [hsplit, List.map_append] at hvc
      exact hvc.of_append_left
    have h1 := insertManyVideos_first pre ha' hb' hc'
    have h1s : (insertManyVideos pre []).2 = (videoOps pre).map upsertedDoc := by rw [h1]
    rw [h1s, map_getField_mapUpserted "videoId" _ (videoOps_wf pre ha' hb')]
    exact (videoOps_filterVal_nodup pre ha' hc').map (Option.some_injective _)
  · intro op hop
    rw [hvs]
    exact applyUpdateOne_mapUpserted "videoId" (videoOps vids) op
      (videoOps_wf vids hva hvb) (videoOps_filterVal_nodup vids hva hvc) hop
  · rw [hk1]
  · rw [hk1]
  · rw [hks, hk2]
  · rw [hks, hk2]
  · rw [hks, hk2]
  · intro pre suf hsplit
    have ha' : ∀ c ∈ pre, truthy (getField c "channelId") = true :=
      fun c hc => hca c (hsplit ▸ List.mem_append_left _ hc)
    have hb' : ∀ c ∈ pre, (docKeys c).Nodup :=
      fun c hc => hcb c (hsplit ▸ List.mem_append_left _ hc)
    have hc' : (pre.map (fun c => getField c "channelId")).Nodup := by
      rw [hsplit, List.map_append] at hcc
      exact hcc.of_append_left
    have h1 := insertManyChannels_first pre ha' hb' hc'
    have h1s : (insertManyChannels pre []).2 = (channelOps pre).map upsertedDoc := by rw [h1]
    rw [h1s, map_getField_mapUpserted "channelId" _ (channelOps_wf pre ha' hb')]
    exact (channelOps_filterVal_nodup pre ha' hc').map (Option.some_injective _)
  · intro op hop
    rw [hks]
    exact applyUpdateOne_mapUpserted "channelId" (channelOps chans) op
      (channelOps_wf chans hca hcb) (channelOps_filterVal_nodup chans hca hcc) hop

/-- C4 witness: concrete instantiation of `upsertMany_idempotent_dedup`
with two videos and one channel. -/
theorem upsertMany_idempotent_dedup_witness :
    (∀ v ∈ ([[("videoId", BsonValue.str "v1"), ("title", BsonValue.str "t")],
        [("videoId", BsonValue.str "v2")]] : List Doc),
      truthy (getField v "videoId") = true) ∧
    (∀ v ∈ ([[("videoId", BsonValue.str "v1"), ("title", BsonValue.str "t")],
        [("videoId", BsonValue.str "v2")]] : List Doc), (docKeys v).Nodup) ∧
    ((([[("videoId", BsonValue.str "v1"), ("title", BsonValue.str "t")],
        [("videoId", BsonValue.str "v2")]] : List Doc).map
      (fun v => getField v "videoId")).Nodup) ∧
    (insertManyVideos [[("videoId", BsonValue.str "v1"), ("title", BsonValue.str "t")],
        [("videoId", BsonValue.str "v2")]] []).1.newCount = 2 ∧
    (insertManyVideos [[("videoId", BsonValue.str "v1"), ("title", BsonValue.str "t")],
        [("videoId", BsonValue.str "v2")]]
      (insertManyVideos [[("videoId", BsonValue.str "v1"), ("title", BsonValue.str "t")],
        [("videoId", BsonValue.str "v2")]] []).2).1.newCount = 0 := by
  refine ⟨by decide, by decide, by decide, ?_, ?_⟩
  · exact (upsertMany_idempotent_dedup
      [[("videoId", BsonValue.str "v1"), ("title", BsonValue.str "t")],
        [("videoId", BsonValue.str "v2")]] [[("channelId", BsonValue.str "c1")]]
      (by decide) (by decide) (by decide) (by decide) (by decide) (by decide)).1
  · exact (upsertMany_idempotent_dedup
      [[("videoId", BsonValue.str "v1"), ("title", BsonValue.str "t")],
        [("videoId", BsonValue.str "v2")]] [[("channelId", BsonValue.str "c1")]]
      (by decide) (by decide) (by decide) (by decide) (by decide) (by decide)).2.2.1

/-- C5 counterexample: `insert_many_comments` `$set`s the FULL provided
document, so a provided `text: null` field overwrites the stored
`text: "hello"` with null, contradicting the claim that a null-valued
provided field never overwrites an existing stored value. -/
theorem insertManyComments_null_overwrites :
    (insertManyComments [[("commentId", BsonValue.str "c1"), ("text", BsonValue.null)]]
        [[("commentId", BsonValue.str "c1"), ("text", BsonValue.str "hello")]]).2 =
      [[("commentId", BsonValue.str "c1"), ("text", BsonValue.null)]] ∧
    getField [("commentId", BsonValue.str "c1"), ("text", BsonValue.str "hello")] "text" =
      some (BsonValue.str "hello") ∧
    getField [("commentId", BsonValue.str "c1"), ("text", BsonValue.null)] "text" =
      some BsonValue.null := by
  refine ⟨by decide, by decide, by decide⟩

/-- C5 (amended): `insert_many_videos` merges only the non-null provided
fields into the matched stored document: any field that is null-valued or
absent in the provided record keeps its stored value, and no duplicate
document is inserted.  `insert_many_comments` and `insert_many_channels`,
by contrast, `$set` the full provided document, so nulls do overwrite. -/
theorem insertManyVideos_nonNull_merge
    (v d : Doc) (pre post : List Doc) (idv : BsonValue) (f : String)
    (hid : getField v "videoId" = some idv)
    (htr : truthy (some idv) = true)
    (hkeys : (docKeys v).Nodup)
    (hd : getField d "videoId" = some idv)
    (hpre : ∀ d' ∈ pre, getField d' "videoId" ≠ some idv)
    (hnull : getField v f = some BsonValue.null ∨ getField v f = none) :
    (insertManyVideos [v] (pre ++ d :: post)).2 =
      pre ++ applySet d (nonNullFields v) :: post ∧
    getField (applySet d (nonNullFields v)) f = getField d f ∧
    (insertManyVideos [v] (pre ++ d :: post)).1.newCount = 0 := by
  have hops : videoOps [v] = [UpdateOp.mk "videoId" idv (nonNullFields v)] := by
    unfold videoOps
    rw [List.filterMap_cons, videoOpOf_of_valid v idv hid htr]
    rfl
  have hne : videoOps [v] ≠ [] := by rw [hops]; simp
  have hbulk := insertManyVideos_bulk [v] (pre ++ d :: post) hne
  rw [hops] at hbulk
  have hop := applyUpdateOne_match pre post d
    (UpdateOp.mk "videoId" idv (nonNullFields v)) hpre hd
  have hb1 : (bulkWrite (pre ++ d :: post)
      [UpdateOp.mk "videoId" idv (nonNullFields v)]).1 =
      pre ++ applySet d (nonNullFields v) :: post := by
    simp only [bulkWrite, hop]
  have hb2 : (bulkWrite (pre ++ d :: post)
      [UpdateOp.mk "videoId" idv (nonNullFields v)]).2.upsertedCount = 0 := by
    simp only [bulkWrite, hop]
    simp
  refine ⟨?_, ?_, ?_⟩
  · rw [hbulk]
    exact hb1
  · exact getField_applySet_of_not_mem _ _ _ (not_mem_nonNullFields_key v f hkeys hnull)
  · rw [hbulk]
    exact hb2

/-- C5 witness: concrete instantiation of `insertManyVideos_nonNull_merge`:
a video update carrying `title: null` leaves the stored title intact. -/
theorem insertManyVideos_nonNull_merge_witness :
    getField [("videoId", BsonValue.str "v1"), ("title", BsonValue.null)] "videoId" =
      some (BsonValue.str "v1") ∧
    truthy (some (BsonValue.str "v1")) = true ∧
    (docKeys [("videoId", BsonValue.str "v1"), ("title", BsonValue.null)]).Nodup ∧
    getField [("videoId", BsonValue.str "v1"), ("title", BsonValue.str "keep"),
      ("views", BsonValue.num 3)] "videoId" = some (BsonValue.str "v1") ∧
    (getField [("videoId", BsonValue.str "v1"), ("title", BsonValue.null)] "title" =
      some BsonValue.null ∨
     getField [("videoId", BsonValue.str "v1"), ("title", BsonValue.null)] "title" = none) ∧
    getField (applySet [("videoId", BsonValue.str "v1"), ("title", BsonValue.str "keep"),
        ("views", BsonValue.num 3)]
      (nonNullFields [("videoId", BsonValue.str "v1"), ("title", BsonValue.null)])) "title" =
      getField [("videoId", BsonValue.str "v1"), ("title", BsonValue.str "keep"),
        ("views", BsonValue.num 3)] "title" :=
  ⟨by decide, by decide, by decide, by decide, by decide,
    (insertManyVideos_nonNull_merge
      [("videoId", BsonValue.str "v1"), ("title", BsonValue.null)]
      [("videoId", BsonValue.str "v1"), ("title", BsonValue.str "keep"),
        ("views", BsonValue.num 3)]
      [] [] (BsonValue.str "v1") "title"
      (by decide) (by decide) (by decide) (by decide) (by decide)
      (Or.inl (by decide))).2.1⟩

/-- C10: on the empty input list, each bulk upsert (`insert_many_videos`,
`insert_many_comments`, `insert_many_channels`) returns all-zero counts and
empty id lists and leaves the store untouched (no write is issued). -/
theorem insertMany_empty_noop (store : List Doc) :
    insertManyVideos [] store = (⟨0, 0, []⟩, store) ∧
    insertManyComments [] store = (⟨0, 0, [], 0, []⟩, store) ∧
    insertManyChannels [] store = (⟨0, 0, []⟩, store) :=
  ⟨rfl, rfl, rfl⟩

/-! ## Status updates keyed by id lists (src/src/database/database.py):
`update_videos_status_by_video_ids` (videos → "crawled_comment") and
`update_channels_status_by_playlist_ids` (channels → "crawled_video"). -/

/-- A stored document restricted to the fields these updates read or write:
its Mongo `_id` (`docId`), the matching key (`videoId` for videos,
`playlistId` for channels) and `status`. -/
structure KeyedDoc where
  docId : Nat
  key : String
  status : String
deriving DecidableEq, Repr

/-- Result shape of the two status-update operations. -/
structure UpdStatusResult where
  updatedCount : Nat
  foundIds : List String
  notFoundIds : List String
deriving DecidableEq, Repr

/-- Mongo `UpdateOne({"_id": i}, {"$set": {"status": target}})`: set the
status of the first document with `_id = i`; the flag reports whether the
document actually changed (Mongo's `modified_count` contribution). -/
def setStatusById (i : Nat) (target : String) : List KeyedDoc → List KeyedDoc × Bool
  | [] => ([], false)
  | d :: rest =>
    if d.docId == i then
      ({ d with status := target } :: rest, d.status != target)
    else
      let r := setStatusById i target rest
      (d :: r.1, r.2)

/-- `bulk_write` of the per-`_id` status updates, accumulating
`modified_count`. -/
def setStatusBulk (target : String) : List KeyedDoc → List Nat → List KeyedDoc × Nat
  | store, [] => (store, 0)
  | store, i :: is =>
    let r := setStatusById i target store
    let r2 := setStatusBulk target r.1 is
    (r2.1, (if r.2 then 1 else 0) + r2.2)

/-- Shared shape of the two status-update operations: find the documents
whose key is in `ids` (Mongo `$in`, with NO condition on the current
status), and for each matched document with a truthy key record the key and
update that document by `_id`; ids not found on any matched document are
reported back (the source builds a Python set; we keep first-occurrence
order). -/
def updateStatusByIds (target : String) (ids : List String)
    (store : List KeyedDoc) : UpdStatusResult × List KeyedDoc :=
  if ids.isEmpty then (⟨0, [], []⟩, store)
  else
    let matched := store.filter (fun d => ids.contains d.key)
    let matchedValid := matched.filter (fun d => !(d.key == ""))
    let found := matchedValid.foldl
      (fun acc d => if acc.contains d.key then acc else acc ++ [d.key]) []
    let opIds := matchedValid.map KeyedDoc.docId
    if opIds.isEmpty then (⟨0, [], ids⟩, store)
    else
      let r := setStatusBulk target store opIds
      (⟨r.2, found, ids.filter (fun i => !(found.contains i))⟩, r.1)

/-- `Database.update_videos_status_by_video_ids`: match videos by `videoId`
only and set their status to `"crawled_comment"` (`STATUS_ENTITY`). -/
def updateVideosStatusByVideoIds (ids : List String) (store : List KeyedDoc) :
    UpdStatusResult × List KeyedDoc :=
  updateStatusByIds "crawled_comment" ids store

/-- `Database.update_channels_status_by_playlist_ids`: match channels by
`playlistId` only and set their status to `"crawled_video"`. -/
def updateChannelsStatusByPlaylistIds (ids : List String) (store : List KeyedDoc) :
    UpdStatusResult × List KeyedDoc :=
  updateStatusByIds "crawled_video" ids store

/-! ### Lemmas about the status updates -/

theorem map_setStatus_id (i : Nat) (target : String) (rest : List KeyedDoc)
    (h : ∀ d' ∈ rest, d'.docId ≠ i) :
    rest.map (fun d => if d.docId = i then { d with status := target } else d) = rest := by
  induction rest with
  | nil => rfl
  | cons d rest ih =>
    simp only [List.map_cons, if_neg (h d (List.mem_cons_self _ _))]
    rw [ih (fun d' h' => h d' (List.mem_cons_of_mem _ h'))]

theorem setStatusById_spec (i : Nat) (target : String) (store : List KeyedDoc)
    (hnd : (store.map KeyedDoc.docId).Nodup) :
    (setStatusById i target store).1 =
      store.map (fun d => if d.docId = i then { d with status := target } else d) ∧
    (setStatusById i target store).2 =
      store.any (fun d => d.docId == i && d.status != target) := by
  induction store with
  | nil => exact ⟨rfl, rfl⟩
  | cons d rest ih =>
    have hnd' : (rest.map KeyedDoc.docId).Nodup := (List.nodup_cons.mp hnd).2
    have hih := ih hnd'
    by_cases hd : d.docId = i
    · have hrest : ∀ d' ∈ rest, d'.docId ≠ i := by
        intro d' h' hEq
        have : d.docId ∉ rest.map KeyedDoc.docId := (List.nodup_cons.mp hnd).1
        exact this (by rw [hd, ← hEq]; exact List.mem_map_of_mem _ h')
      have hany : rest.any (fun d' => d'.docId == i && d'.status != target) = false := by
        rw [List.any_eq_false]
        intro d' h'
        simp [hrest d' h']
      constructor
      · simp only [setStatusById, hd, beq_self_eq_true, if_true, List.map_cons, if_pos hd]
        rw [map_setStatus_id i target rest hrest]
      · simp only [setStatusById, hd, beq_self_eq_true, if_true, List.any_cons, hany]
        simp [hd]
    · have hbd : (d.docId == i) = false := by simpa using hd
      constructor
      · simp only [setStatusById, hbd, Bool.false_eq_true, if_false, List.map_cons,
          if_neg hd]
        rw [hih.1]
      · simp only [setStatusById, hbd, Bool.false_eq_true, if_false, List.any_cons]
        rw [hih.2]
        simp [hbd]

theorem docIds_map_setStatus (i : Nat) (target : String) (store : List KeyedDoc) :
    (store.map (fun d => if d.docId = i then { d with status := target } else d)).map
      KeyedDoc.docId = store.map KeyedDoc.docId := by
  rw [List.map_map]
  refine List.map_congr_left ?_
  intro d _
  by_cases hd : d.docId = i <;> simp [hd]

theorem setStatusBulk_store (target : String) (is : List Nat) (store : List KeyedDoc)
    (hnd : (store.map KeyedDoc.docId).Nodup) :
    (setStatusBulk target store is).1 =
      store.map (fun d => if d.docId ∈ is then { d with status := target } else d) := by
  induction is generalizing store with
  | nil =>
    simp only [setStatusBulk]
    symm
    have : ∀ d ∈ store, (if d.docId ∈ ([] : List Nat)
        then { d with status := target } else d) = d := by
      intro d _; simp
    rw [List.map_congr_left this]
    exact List.map_id' store
  | cons i is ih =>
    simp only [setStatusBulk]
    rw [(setStatusById_spec i target store hnd).1]
    rw [ih _ (by rw [docIds_map_setStatus]; exact hnd)]
    rw [List.map_map]
    refine List.map_congr_left ?_
    intro d _
    by_cases hdi : d.docId = i
    · by_cases hin : d.docId ∈ is <;>
        simp [Function.comp, hdi, hin, List.mem_cons]
    · by_cases hin : d.docId ∈ is <;>
        simp [Function.comp, hdi, hin, List.mem_cons]

theorem setStatusBulk_count (target : String) (is : List Nat) (store : List KeyedDoc)
    (hnd : (store.map KeyedDoc.docId).Nodup) (hdist : is.Nodup) :
    (setStatusBulk target store is).2 =
      (is.filter (fun i =>
        store.any (fun d => d.docId == i && d.status != target))).length := by
  induction is generalizing store with
  | nil => rfl
  | cons i is ih =>
    simp only [setStatusBulk]
    rw [(setStatusById_spec i target store hnd).2,
      (setStatusById_spec i target store hnd).1]
    have hni : i ∉ is := (List.nodup_cons.mp hdist).1
    have hrec := ih (store.map (fun d => if d.docId = i then { d with status := target } else d))
      (by rw [docIds_map_setStatus]; exact hnd) (List.nodup_cons.mp hdist).2
    rw [hrec]
    have hsame : ∀ j ∈ is,
        ((store.map (fun d => if d.docId = i then { d with status := target } else d)).any
          (fun d => d.docId == j && d.status != target)) =
        (store.any (fun d => d.docId == j && d.status != target)) := by
      intro j hj
      rw [List.any_map]
      have hfun : ((fun d : KeyedDoc => d.docId == j && d.status != target) ∘
          (fun d => if d.docId = i then { d with status := target } else d)) =
          (fun d : KeyedDoc => d.docId == j && d.status != target) := by
        funext d
        by_cases hdi : d.docId = i
        · have hij : i ≠ j := fun hEq => hni (hEq ▸ hj)
          simp [Function.comp, hdi, hij]
        · simp [Function.comp, hdi]
      rw [hfun]
    rw [List.filter_congr hsame]
    rw [List.filter_cons]
    by_cases hpi : (store.any (fun d => d.docId == i && d.status != target)) = true
    · simp [hpi]
      omega
    · simp only [Bool.not_eq_true] at hpi
      simp [hpi]

theorem any_unique (target : String) (store : List KeyedDoc) (d : KeyedDoc)
    (hnd : (store.map KeyedDoc.docId).Nodup) (hmem : d ∈ store) :
    store.any (fun d' => d'.docId == d.docId && d'.status != target) =
      (d.status != target) := by
  induction store with
  | nil => simp at hmem
  | cons d0 rest ih =>
    have hhead : d0.docId ∉ rest.map KeyedDoc.docId := (List.nodup_cons.mp hnd).1
    rcases List.mem_cons.mp hmem with h | h
    · subst h
      have hrest : rest.any (fun d' => d'.docId == d.docId && d'.status != target) = false := by
        rw [List.any_eq_false]
        intro d' h'
        have : d'.docId ≠ d.docId := by
          intro hEq
          exact hhead (hEq ▸ List.mem_map_of_mem _ h')
        simp [this]
      rw [List.any_cons, hrest]
      simp
    · have hne : (d0.docId == d.docId) = false := by
        have : d0.docId ≠ d.docId := by
          intro hEq
          exact hhead (hEq ▸ List.mem_map_of_mem _ h)
        simpa using this
      rw [List.any_cons, ih (List.nodup_cons.mp hnd).2 h]
      simp [hne]

theorem updateStatusByIds_spec (target : String) (ids : List String)
    (store : List KeyedDoc) (hnd : (store.map KeyedDoc.docId).Nodup) :
    (updateStatusByIds target ids store).2 = store.map (fun d =>
      if ids.contains d.key && !(d.key == "") then { d with status := target } else d) ∧
    (updateStatusByIds target ids store).1.updatedCount =
      (((store.filter (fun d => ids.contains d.key)).filter
          (fun d => !(d.key == ""))).filter (fun d => d.status != target)).length := by
  by_cases hids : ids = []
  · subst hids
    constructor
    · show store = _
      symm
      have : ∀ d ∈ store, (if ([] : List String).contains d.key && !(d.key == "")
          then { d with status := target } else d) = d := by
        intro d _
        simp [List.contains]
      rw [List.map_congr_left this]
      exact List.map_id' store
    · show 0 = _
      have : store.filter (fun d => ([] : List String).contains d.key) = [] := by
        rw [List.filter_eq_nil_iff]
        intro d _
        simp [List.contains]
      rw [this]
      rfl
  · have hids' : ids.isEmpty = false := by
      cases ids with
      | nil => exact absurd rfl hids
      | cons a l => rfl
    set matchedValid := (store.filter (fun d => ids.contains d.key)).filter
      (fun d => !(d.key == "")) with hmv
    have hmvsub : ∀ d ∈ matchedValid, d ∈ store := by
      intro d hd
      exact (List.mem_filter.mp ((List.mem_filter.mp hd).1)).1
    have hmvcond : ∀ d ∈ matchedValid,
        (ids.contains d.key && !(d.key == "")) = true := by
      intro d hd
      have h1 := (List.mem_filter.mp ((List.mem_filter.mp hd).1)).2
      have h2 := (List.mem_filter.mp hd).2
      rw [Bool.and_eq_true]
      exact ⟨h1, h2⟩
    have hmvnd : (matchedValid.map KeyedDoc.docId).Nodup := by
      refine List.Nodup.sublist (List.Sublist.map _ ?_) hnd
      exact (List.filter_sublist _).trans (List.filter_sublist _)
    by_cases hop : matchedValid.map KeyedDoc.docId = []
    · have hmvnil : matchedValid = [] := by
        cases hmve : matchedValid with
        | nil => rfl
        | cons a l => rw [hmve] at hop; simp at hop
      have hnone : ∀ d ∈ store, (ids.contains d.key && !(d.key == "")) = false := by
        intro d hd
        by_contra hc
        simp only [Bool.not_eq_false, Bool.and_eq_true] at hc
        have : d ∈ matchedValid := by
          rw [hmv]
          exact List.mem_filter.mpr ⟨List.mem_filter.mpr ⟨hd, hc.1⟩, hc.2⟩
        rw [hmvnil] at this
        simp at this
      have hempty : (updateStatusByIds target ids store) = (⟨0, [], ids⟩, store) := by
        unfold updateStatusByIds
        rw [if_neg (by simp [hids'])]
        rw [← hmv] at *
        simp only [hop]
        rfl
      rw [hempty]
      constructor
      · show store = _
        symm
        have : ∀ d ∈ store, (if ids.contains d.key && !(d.key == "")
            then { d with status := target } else d) = d := by
          intro d hd
          rw [hnone d hd]
          rfl
        rw [List.map_congr_left this]
        exact List.map_id' store
      · show 0 = _
        rw [hmvnil]
        rfl
    · have hopne : (matchedValid.map KeyedDoc.docId).isEmpty = false := by
        cases hmve : matchedValid.map KeyedDoc.docId with
        | nil => exact absurd hmve hop
        | cons a l => rfl
      have hres : updateStatusByIds target ids store =
          (⟨(setStatusBulk target store (matchedValid.map KeyedDoc.docId)).2,
            matchedValid.foldl (fun acc d =>
              if acc.contains d.key then acc else acc ++ [d.key]) [],
            ids.filter (fun i => !((matchedValid.foldl (fun acc d =>
              if acc.contains d.key then acc else acc ++ [d.key]) []).contains i))⟩,
           (setStatusBulk target store (matchedValid.map KeyedDoc.docId)).1) := by
        unfold updateStatusByIds
        rw [if_neg (by simp [hids'])]
        rw [← hmv] at *
        simp only [hopne]
        rfl
      rw [hres]
      constructor
      · show (setStatusBulk target store (matchedValid.map KeyedDoc.docId)).1 = _
        rw [setStatusBulk_store target _ store hnd]
        refine List.map_congr_left ?_
        intro d hd
        by_cases hcond : (ids.contains d.key && !(d.key == "")) = true
        · have hdm : d ∈ matchedValid := by
            rw [hmv]
            simp only [Bool.and_eq_true] at hcond
            exact List.mem_filter.mpr ⟨List.mem_filter.mpr ⟨hd, hcond.1⟩, hcond.2⟩
          rw [if_pos (List.mem_map_of_mem _ hdm), if_pos hcond]
        · have hdm : d.docId ∉ matchedValid.map KeyedDoc.docId := by
            intro hin
            obtain ⟨d', hd', hEq⟩ := List.mem_map.mp hin
            have : d' = d := by
              have hinj := List.inj_on_of_nodup_map hnd
              exact hinj (hmvsub d' hd') hd hEq
            rw [this] at hd'
            exact hcond (hmvcond d hd')
          rw [if_neg hdm, if_neg hcond]
      · show (setStatusBulk target store (matchedValid.map KeyedDoc.docId)).2 = _
        rw [setStatusBulk_count target _ store hnd hmvnd]
        rw [List.filter_map]
        rw [List.length_map]
        congr 1
        refine List.filter_congr ?_
        intro d hd
        exact any_unique target store d hnd (hmvsub d hd)

/-! ### Claim theorems: C2 -/

/-- C2 counterexample: `update_videos_status_by_video_ids` has NO
from-status guard: a video currently at "to_crawl" — which is neither the
expected from-state "crawled_video" of the video status machine nor the
target — is still rewritten to "crawled_comment" and counted in
`updated_count`, contradicting the claim that a record whose status is not
in the allowed from-set is left untouched and excluded from the count. -/
theorem updateVideosStatus_no_from_guard :
    updateVideosStatusByVideoIds ["v1"] [⟨1, "v1", "to_crawl"⟩] =
      (⟨1, ["v1"], []⟩, [⟨1, "v1", "crawled_comment"⟩]) ∧
    ("to_crawl" : String) ≠ "crawled_video" ∧
    ("to_crawl" : String) ≠ "crawled_comment" := by
  refine ⟨by decide, by decide, by decide⟩

/-- C2 (amended): the status-update operations match records by id
(`videoId` / `playlistId`) only — there is no from-status condition.  Every
matched record with a truthy key has its status set to the target
("crawled_comment" for videos, "crawled_video" for channels) REGARDLESS of
its current status; records not matched by id are untouched; and
`updated_count` is Mongo's `modified_count`: the number of matched records
whose status actually changed. -/
theorem updateStatus_by_id_unconditional (ids : List String) (store : List KeyedDoc)
    (hnd : (store.map KeyedDoc.docId).Nodup) :
    (updateVideosStatusByVideoIds ids store).2 = store.map (fun d =>
      if ids.contains d.key && !(d.key == "") then { d with status := "crawled_comment" }
      else d) ∧
    (updateVideosStatusByVideoIds ids store).1.updatedCount =
      (((store.filter (fun d => ids.contains d.key)).filter
          (fun d => !(d.key == ""))).filter
        (fun d => d.status != "crawled_comment")).length ∧
    (updateChannelsStatusByPlaylistIds ids store).2 = store.map (fun d =>
      if ids.contains d.key && !(d.key == "") then { d with status := "crawled_video" }
      else d) ∧
    (updateChannelsStatusByPlaylistIds ids store).1.updatedCount =
      (((store.filter (fun d => ids.contains d.key)).filter
          (fun d => !(d.key == ""))).filter
        (fun d => d.status != "crawled_video")).length := by
  have h1 := updateStatusByIds_spec "crawled_comment" ids store hnd
  have h2 := updateStatusByIds_spec "crawled_video" ids store hnd
  exact ⟨h1.1, h1.2, h2.1, h2.2⟩

/-- C2 witness: concrete instantiation of
`updateStatus_by_id_unconditional`: one matched video already at the
target, one matched video at "to_crawl", one unmatched video. -/
theorem updateStatus_by_id_unconditional_witness :
    (([⟨1, "a", "crawled_comment"⟩, ⟨2, "b", "to_crawl"⟩, ⟨3, "c", "to_crawl"⟩] :
        List KeyedDoc).map KeyedDoc.docId).Nodup ∧
    (updateVideosStatusByVideoIds ["a", "b", "zz"]
        [⟨1, "a", "crawled_comment"⟩, ⟨2, "b", "to_crawl"⟩, ⟨3, "c", "to_crawl"⟩]).2 =
      ([⟨1, "a", "crawled_comment"⟩, ⟨2, "b", "to_crawl"⟩, ⟨3, "c", "to_crawl"⟩] :
        List KeyedDoc).map (fun d =>
        if (["a", "b", "zz"] : List String).contains d.key && !(d.key == "")
        then { d with status := "crawled_comment" } else d) ∧
    (updateVideosStatusByVideoIds ["a", "b", "zz"]
        [⟨1, "a", "crawled_comment"⟩, ⟨2, "b", "to_crawl"⟩, ⟨3, "c", "to_crawl"⟩]).1.updatedCount =
      (((([⟨1, "a", "crawled_comment"⟩, ⟨2, "b", "to_crawl"⟩, ⟨3, "c", "to_crawl"⟩] :
            List KeyedDoc).filter
          (fun d => (["a", "b", "zz"] : List String).contains d.key)).filter
          (fun d => !(d.key == ""))).filter
        (fun d => d.status != "crawled_comment")).length := by
  refine ⟨by decide, ?_, ?_⟩
  · exact (updateStatus_by_id_unconditional ["a", "b", "zz"]
      [⟨1, "a", "crawled_comment"⟩, ⟨2, "b", "to_crawl"⟩, ⟨3, "c", "to_crawl"⟩]
      (by decide)).1
  · exact (updateStatus_by_id_unconditional ["a", "b", "zz"]
      [⟨1, "a", "crawled_comment"⟩, ⟨2, "b", "to_crawl"⟩, ⟨3, "c", "to_crawl"⟩]
      (by decide)).2.1

/-! ## Retry wrapper (src/src/database/database.py
`retry_mongodb_operation`). -/

/-- The exception classes the retry decorator distinguishes. -/
inductive MongoError where
  | connectionFailure
  | serverSelectionTimeout
  | operationFailure
  | other
deriving DecidableEq, Repr

/-- The decorator's `except` clause: it catches `ConnectionFailure`,
`ServerSelectionTimeoutError` AND `OperationFailure` (the pymongo class of
duplicate-key and schema-validation errors); anything else propagates. -/
def caughtByRetry : MongoError → Bool
  | .connectionFailure => true
  | .serverSelectionTimeout => true
  | .operationFailure => true
  | .other => false

/-- The loop of `retry_mongodb_operation(max_retries, delay)` applied to a
function whose attempt number `n` yields `f n`: up to `max_retries`
attempts, sleeping `delay * (attempt + 1)` before each retry of a caught
failure (the returned list collects these multipliers); a caught error on
the last attempt is re-raised; an uncaught error propagates at once;
falling out of the loop (`max_retries = 0`) returns Python `None`, modelled
as `Except.ok none`.  Returns (outcome, calls made, sleep multipliers). -/
def retryLoop {α : Type} (f : Nat → Except MongoError α) :
    Nat → Nat → Except MongoError (Option α) × Nat × List Nat
  | 0, _ => (Except.ok none, 0, [])
  | fuel + 1, attempt =>
    match f attempt with
    | Except.ok a => (Except.ok (some a), 1, [])
    | Except.error e =>
      if caughtByRetry e then
        if fuel = 0 then (Except.error e, 1, [])
        else
          let r := retryLoop f fuel (attempt + 1)
          (r.1, r.2.1 + 1, (attempt + 1) :: r.2.2)
      else (Except.error e, 1, [])

/-- `retry_mongodb_operation(max_retries)` wrapping `f`. -/
def retryMongoOperation {α : Type} (f : Nat → Except MongoError α)
    (maxRetries : Nat) : Except MongoError (Option α) × Nat × List Nat :=
  retryLoop f maxRetries 0

theorem retryLoop_calls_le {α : Type} (f : Nat → Except MongoError α) :
    ∀ fuel attempt, (retryLoop f fuel attempt).2.1 ≤ fuel := by
  intro fuel
  induction fuel with
  | zero => intro attempt; exact Nat.le_refl 0
  | succ n ih =>
    intro attempt
    unfold retryLoop
    cases f attempt with
    | ok a => exact Nat.succ_le_succ (Nat.zero_le n)
    | error e =>
      by_cases hc : caughtByRetry e = true
      · simp only [hc, if_true]
        by_cases hn : n = 0
        · simp [hn]
        · simp only [hn, if_false]
          exact Nat.succ_le_succ (ih (attempt + 1))
      · simp only [Bool.not_eq_true] at hc
        simp [hc]

theorem retryLoop_persistent {α : Type} (f : Nat → Except MongoError α)
    (e : MongoError) (hf : ∀ n, f n = Except.error e)
    (hc : caughtByRetry e = true) :
    ∀ fuel attempt, 1 ≤ fuel →
      retryLoop f fuel attempt =
        (Except.error e, fuel, (List.range (fuel - 1)).map (fun j => attempt + j + 1)) := by
  intro fuel
  induction fuel with
  | zero => intro attempt h; omega
  | succ n ih =>
    intro attempt _
    unfold retryLoop
    rw [hf attempt]
    simp only [hc, if_true]
    by_cases hn : n = 0
    · subst hn
      simp
    · simp only [hn, if_false]
      rw [ih attempt.succ (by omega)]
      have hrange : (List.range n).map (fun j => attempt + j + 1) =
          (attempt + 1) :: (List.range (n - 1)).map (fun j => attempt + 1 + j + 1) := by
        cases n with
        | zero => exact absurd rfl hn
        | succ m =>
          rw [List.range_succ_eq_map, List.map_cons, List.map_map]
          refine congrArg (fun l => (attempt + 0 + 1) :: l) ?_
          simp only [Nat.add_sub_cancel]
          refine List.map_congr_left ?_
          intro j _
          simp only [Function.comp]
          omega
      simp only [Nat.succ_sub_one]
      rw [hrange]

/-! ### Claim theorems: C6 -/

/-- C6 counterexample: an `OperationFailure` — the pymongo class of
non-transient errors such as duplicate keys and schema validation — is
caught and retried by the decorator: under a persistently failing
operation, 3 calls are made instead of the single call required by
"propagates immediately without any retry attempt". -/
theorem retry_retries_operationFailure :
    retryMongoOperation (fun _ => (Except.error MongoError.operationFailure :
        Except MongoError Unit)) 3 =
      (Except.error MongoError.operationFailure, 3, [1, 2]) ∧ (3 : Nat) ≠ 1 := by
  refine ⟨rfl, by decide⟩

/-- C6 (amended): the retry wrapper makes at most `max_retries` calls; a
successful first call returns at once; an error class OUTSIDE
{ConnectionFailure, ServerSelectionTimeoutError, OperationFailure}
propagates immediately after exactly one call with no sleep; an error class
inside that set — which includes the non-transient `OperationFailure` — is
retried up to `max_retries` times with linearly growing sleep multipliers
1, 2, ….  (The spec's claim that only transient connectivity/timeout
classes are retried fails because `OperationFailure` is in the caught set,
and the backoff is linear, not exponential.) -/
theorem retryMongoOperation_spec {α : Type}
    (f1 f2 f3 f4 : Nat → Except MongoError α) (a : α) (e2 e3 : MongoError)
    (maxRetries : Nat)
    (hf1 : f1 0 = Except.ok a)
    (hf2 : f2 0 = Except.error e2) (he2 : caughtByRetry e2 = false)
    (hf3 : ∀ n, f3 n = Except.error e3) (he3 : caughtByRetry e3 = true)
    (hmax : 1 ≤ maxRetries) :
    retryMongoOperation f1 maxRetries = (Except.ok (some a), 1, []) ∧
    retryMongoOperation f2 maxRetries = (Except.error e2, 1, []) ∧
    retryMongoOperation f3 maxRetries =
      (Except.error e3, maxRetries,
        (List.range (maxRetries - 1)).map (fun j => j + 1)) ∧
    (retryMongoOperation f4 maxRetries).2.1 ≤ maxRetries := by
  refine ⟨?_, ?_, ?_, retryLoop_calls_le f4 maxRetries 0⟩
  · cases maxRetries with
    | zero => omega
    | succ n =>
      unfold retryMongoOperation retryLoop
      rw [hf1]
  · cases maxRetries with
    | zero => omega
    | succ n =>
      unfold retryMongoOperation retryLoop
      rw [hf2]
      simp [he2]
  · rw [retryMongoOperation, retryLoop_persistent f3 e3 hf3 he3 maxRetries 0 hmax]
    refine congrArg (fun l => (Except.error e3, maxRetries, l)) ?_
    refine List.map_congr_left ?_
    intro j _
    omega

/-- C6 witness: concrete instantiation of `retryMongoOperation_spec` at
`max_retries = 3` (the decorator's default). -/
theorem retryMongoOperation_spec_witness :
    ((fun _ => Except.ok 7) : Nat → Except MongoError Nat) 0 = Except.ok 7 ∧
    ((fun _ => Except.error MongoError.other) : Nat → Except MongoError Nat) 0 =
      Except.error MongoError.other ∧
    caughtByRetry MongoError.other = false ∧
    (∀ n, ((fun _ => Except.error MongoError.operationFailure) :
      Nat → Except MongoError Nat) n = Except.error MongoError.operationFailure) ∧
    caughtByRetry MongoError.operationFailure = true ∧
    1 ≤ 3 ∧
    (retryMongoOperation ((fun _ => Except.ok 7) : Nat → Except MongoError Nat) 3 =
        (Except.ok (some 7), 1, []) ∧
      retryMongoOperation ((fun _ => Except.error MongoError.other) :
          Nat → Except MongoError Nat) 3 = (Except.error MongoError.other, 1, []) ∧
      retryMongoOperation ((fun _ => Except.error MongoError.operationFailure) :
          Nat → Except MongoError Nat) 3 =
        (Except.error MongoError.operationFailure, 3,
          (List.range 2).map (fun j => j + 1)) ∧
      (retryMongoOperation ((fun _ => Except.ok 7) :
          Nat → Except MongoError Nat) 3).2.1 ≤ 3) :=
  ⟨rfl, rfl, rfl, fun _ => rfl, rfl, by decide,
    retryMongoOperation_spec _ _ _ _ 7 MongoError.other MongoError.operationFailure 3
      rfl rfl rfl (fun _ => rfl) rfl (by decide)⟩

/-! ## Worker-pool partitioning
(src/src/services/video_crawler_service.py `crawl_all_videos`,
src/src/services/comment_crawler_service.py `crawl_all_comments`). -/

/-- The distribution loop: for each thread index `i`, the slice size is
`per + (1 if i < rem else 0)`; a slice is submitted only while
`start_idx < total`, and `start_idx` advances by the slice size. -/
def distributeAux {α : Type} (items : List α) (total per rem : Nat) :
    Nat → Nat → Nat → List (List α)
  | 0, _, _ => []
  | fuel + 1, i, start =>
    let size := per + (if i < rem then 1 else 0)
    if start < total then
      ((items.drop start).take size) ::
        distributeAux items total per rem fuel (i + 1) (start + size)
    else distributeAux items total per rem fuel (i + 1) start

/-- The per-batch partitioning of `crawl_all_videos` /
`crawl_all_comments`: `per = total // num_threads`,
`rem = total % num_threads`, remainder distributed to the first threads. -/
def crawlPartition {α : Type} (items : List α) (numThreads : Nat) :
    List (List α) :=
  distributeAux items items.length (items.length / numThreads)
    (items.length % numThreads) numThreads 0 0

/-- Total number of items the loop hands to threads `i, i+1, …` over
`fuel` iterations. -/
def sizesSum (per rem : Nat) : Nat → Nat → Nat
  | 0, _ => 0
  | fuel + 1, i => (per + (if i < rem then 1 else 0)) + sizesSum per rem fuel (i + 1)

theorem sizesSum_eq (per rem : Nat) :
    ∀ fuel i, sizesSum per rem fuel i + min rem i = fuel * per + min rem (i + fuel) := by
  intro fuel
  induction fuel with
  | zero => intro i; simp [sizesSum]
  | succ n ih =>
    intro i
    have hih := ih (i + 1)
    unfold sizesSum
    have hmul : (n + 1) * per = n * per + per := by ring
    by_cases hi : i < rem
    · simp only [hi, if_true]
      omega
    · simp only [hi, if_false]
      omega

theorem distributeAux_join {α : Type} (items : List α) (per rem : Nat) :
    ∀ fuel i start,
      (distributeAux items items.length per rem fuel i start).flatten =
        (items.drop start).take (sizesSum per rem fuel i) := by
  intro fuel
  induction fuel with
  | zero => intro i start; simp [distributeAux, sizesSum]
  | succ n ih =>
    intro i start
    unfold distributeAux sizesSum
    by_cases hs : start < items.length
    · simp only [hs, if_true, List.flatten_cons]
      rw [ih (i + 1) (start + (per + if i < rem then 1 else 0))]
      conv_rhs => rw [List.take_add]
      rw [List.drop_drop]
    · simp only [hs, if_false]
      rw [ih (i + 1) start]
      have hnil : items.drop start = [] := by
        rw [List.drop_eq_nil_iff]
        omega
      rw [hnil]
      simp

theorem distributeAux_batch_le {α : Type} (items : List α) (total per rem : Nat) :
    ∀ fuel i start b, b ∈ distributeAux items total per rem fuel i start →
      b.length ≤ per + 1 := by
  intro fuel
  induction fuel with
  | zero => intro i start b hb; simp [distributeAux] at hb
  | succ n ih =>
    intro i start b hb
    unfold distributeAux at hb
    by_cases hs : start < total
    · simp only [hs, if_true, List.mem_cons] at hb
      rcases hb with hb | hb
      · subst hb
        calc ((items.drop start).take (per + if i < rem then 1 else 0)).length
            ≤ per + if i < rem then 1 else 0 := by
              rw [List.length_take]; exact Nat.min_le_left _ _
          _ ≤ per + 1 := by by_cases hi : i < rem <;> simp [hi]
      · exact ih (i + 1) _ b hb
    · simp only [hs, if_false] at hb
      exact ih (i + 1) start b hb

/-! ### Claim theorem: C7 -/

/-- C7: for every item list and every thread count `n ≥ 1` (including empty
lists and fewer items than threads), the partitioning of
`crawl_all_videos` / `crawl_all_comments` assigns every item to exactly one
batch, in order — the concatenation of the batches is exactly the input
list — and each batch carries at most `total // n + 1` items (the remainder
goes to the first batches). -/
theorem crawlPartition_exact {α : Type} (items : List α) (n : Nat) (h : 1 ≤ n) :
    (crawlPartition items n).flatten = items ∧
    ∀ b ∈ crawlPartition items n, b.length ≤ items.length / n + 1 := by
  constructor
  · unfold crawlPartition
    rw [distributeAux_join items (items.length / n) (items.length % n) n 0 0]
    have hsum : sizesSum (items.length / n) (items.length % n) n 0 = items.length := by
      have := sizesSum_eq (items.length / n) (items.length % n) n 0
      have hlt : items.length % n < n := Nat.mod_lt _ (by omega)
      have hdm := Nat.div_add_mod items.length n
      omega
    rw [hsum]
    simp
  · intro b hb
    exact distributeAux_batch_le items items.length (items.length / n)
      (items.length % n) n 0 0 b hb

/-- C7 witness: concrete instantiation of `crawlPartition_exact` with
5 items over 2 threads (sizes 3 and 2). -/
theorem crawlPartition_exact_witness :
    1 ≤ 2 ∧
    ((crawlPartition [10, 20, 30, 40, 50] 2).flatten = [10, 20, 30, 40, 50] ∧
      ∀ b ∈ crawlPartition [10, 20, 30, 40, 50] 2,
        b.length ≤ ([10, 20, 30, 40, 50] : List Nat).length / 2 + 1) :=
  ⟨by decide, crawlPartition_exact [10, 20, 30, 40, 50] 2 (by decide)⟩

/-! ## The queue-consumer boundary (src/src/rabbitmq_consumer.py
`RabbitMQConsumer.process_message`). -/

/-- What the handler does with the delivery: `basic_ack`, `basic_nack`
(pika's default `requeue=True`, so the broker redelivers), or neither (the
message stays unacknowledged on the channel and is redelivered once the
channel closes). -/
inductive Disposition where
  | ack
  | nackRequeue
  | leftUnacked
deriving DecidableEq, Repr

/-- An incoming delivery: either an undecodable body (JSON decode error),
or a decoded object with its optional `action` and body fields. -/
inductive QueueMsg where
  | undecodable
  | decoded (action : Option String)
      (channelId customUrl videoId url : Option String)
deriving DecidableEq, Repr

/-- Python truthiness of an optional string field. -/
def truthyStr : Option String → Bool
  | none => false
  | some s => !(s == "")

/-- `process_message`: a JSON decode error is caught and the message is
neither acked nor nacked; a `CHANNEL_INFO` message with falsy `channelId`
and `customUrl` (or a `VIDEO_INFO` message with falsy `videoId` and `url`)
is `basic_nack`ed with pika's default `requeue=True`; otherwise the handler
crawls when an id is present (`VIDEO_INFO` with only a `url` crawls
nothing: the url branch is commented out) and acks; an exception while
crawling is caught by the blanket handler, leaving the message unacked; any
other action falls through directly to `basic_ack`. -/
def processMessage (m : QueueMsg) (crawlRaises : Bool) : Disposition :=
  match m with
  | .undecodable => .leftUnacked
  | .decoded action channelId customUrl videoId url =>
    if action == some "CHANNEL_INFO" then
      if !truthyStr channelId && !truthyStr customUrl then .nackRequeue
      else if crawlRaises then .leftUnacked
      else .ack
    else if action == some "VIDEO_INFO" then
      if !truthyStr videoId && !truthyStr url then .nackRequeue
      else if truthyStr videoId && crawlRaises then .leftUnacked
      else .ack
    else .ack

/-! ### Claim theorems: C8 -/

/-- C8 counterexample: a routable `CHANNEL_INFO` message missing every id
field is `basic_nack`ed with pika's default `requeue=True` — it is requeued
and redelivered, not dropped — and an undecodable message is neither acked
nor nacked, so it is redelivered when the channel closes.  Both contradict
the claim that malformed messages are dropped and never redelivered. -/
theorem processMessage_requeues_malformed :
    processMessage (QueueMsg.decoded (some "CHANNEL_INFO") none none none none) false =
      Disposition.nackRequeue ∧
    Disposition.nackRequeue ≠ Disposition.ack ∧
    processMessage QueueMsg.undecodable false = Disposition.leftUnacked ∧
    Disposition.leftUnacked ≠ Disposition.ack := by
  refine ⟨rfl, by decide, rfl, by decide⟩

/-- C8 (amended): the dispatcher acknowledges (drops) messages whose action
is unroutable, but a routable message missing every required id field is
negatively acknowledged with requeue (pika's `basic_nack` default), so it
IS redelivered; and an undecodable body is neither acked nor nacked, so it
is redelivered when the channel closes.  Only unknown-action messages are
dropped as the claim describes. -/
theorem processMessage_boundary (action : Option String)
    (channelId customUrl videoId url : Option String) (crawlRaises : Bool)
    (hact1 : action ≠ some "CHANNEL_INFO") (hact2 : action ≠ some "VIDEO_INFO")
    (hch : truthyStr channelId = false) (hcu : truthyStr customUrl = false)
    (hvid : truthyStr videoId = false) (hurl : truthyStr url = false) :
    processMessage (QueueMsg.decoded action channelId customUrl videoId url)
      crawlRaises = Disposition.ack ∧
    processMessage (QueueMsg.decoded (some "CHANNEL_INFO")
      channelId customUrl videoId url) crawlRaises = Disposition.nackRequeue ∧
    processMessage (QueueMsg.decoded (some "VIDEO_INFO")
      channelId customUrl videoId url) crawlRaises = Disposition.nackRequeue ∧
    processMessage QueueMsg.undecodable crawlRaises = Disposition.leftUnacked := by
  refine ⟨?_, ?_, ?_, rfl⟩
  · have h1 : (action == some "CHANNEL_INFO") = false := by
      simpa using hact1
    have h2 : (action == some "VIDEO_INFO") = false := by
      simpa using hact2
    simp [processMessage, h1, h2]
  · simp [processMessage, hch, hcu]
  · simp [processMessage, hvid, hurl]

/-- C8 witness: concrete instantiation of `processMessage_boundary` with an
unknown action "NOPE" and an empty body. -/
theorem processMessage_boundary_witness :
    (some "NOPE" : Option String) ≠ some "CHANNEL_INFO" ∧
    (some "NOPE" : Option String) ≠ some "VIDEO_INFO" ∧
    truthyStr none = false ∧
    (processMessage (QueueMsg.decoded (some "NOPE") none none none none) false =
        Disposition.ack ∧
      processMessage (QueueMsg.decoded (some "CHANNEL_INFO") none none none none)
        false = Disposition.nackRequeue ∧
      processMessage (QueueMsg.decoded (some "VIDEO_INFO") none none none none)
        false = Disposition.nackRequeue ∧
      processMessage QueueMsg.undecodable false = Disposition.leftUnacked) :=
  ⟨by decide, by decide, rfl,
    processMessage_boundary (some "NOPE") none none none none false
      (by decide) (by decide) rfl rfl rfl rfl⟩

/-! ## Keyword dispatch (src/src/services/auto_crawler_service.py
`process_keyword_from_db`, src/src/controller/crawler.py
`crawl_video_in_channel_by_many_keywords`). -/

/-- Observable events of one keyword dispatch, in program order: keyword
status writes and the crawl call itself. -/
inductive DispatchEvent where
  | setStatus (s : String)
  | crawl
deriving DecidableEq, Repr

/-- Outcome of the crawl call for one keyword. -/
inductive CrawlOutcome where
  | success
  | emptyResult
  | raisesError
deriving DecidableEq, Repr

/-- `process_keyword_from_db keyword`, given the stored keyword document's
status (`none` when the keyword is not in the database): an already
"crawled" keyword is skipped, any status other than "to_crawl" does
nothing; a "to_crawl" keyword is set to "crawling", crawled, then set to
"crawled" on success and to "error" both when the crawl returns no data and
when it raises. -/
def processKeywordFromDb (status : Option String) (outcome : CrawlOutcome) :
    List DispatchEvent :=
  match status with
  | none => []
  | some s =>
    if s = "crawled" then []
    else if s = "to_crawl" then
      match outcome with
      | .success =>
        [.setStatus "crawling", .crawl, .setStatus "crawled"]
      | .emptyResult =>
        [.setStatus "crawling", .crawl, .setStatus "error"]
      | .raisesError =>
        [.setStatus "crawling", .crawl, .setStatus "error"]
    else []

/-- One keyword's step of `crawl_video_in_channel_by_many_keywords`: the
same status guard, but a falsy crawl result only logs a warning, and an
exception propagates out of the loop — in both cases no further status is
written, so the keyword stays at "crawling". -/
def manyKeywordsStep (status : Option String) (outcome : CrawlOutcome) :
    List DispatchEvent :=
  match status with
  | none => []
  | some s =>
    if s = "crawled" then []
    else if s = "to_crawl" then
      match outcome with
      | .success =>
        [.setStatus "crawling", .crawl, .setStatus "crawled"]
      | .emptyResult =>
        [.setStatus "crawling", .crawl]
      | .raisesError =>
        [.setStatus "crawling", .crawl]
    else []

/-! ### Claim theorems: C9 -/

/-- C9 counterexample: in `crawl_video_in_channel_by_many_keywords`, a
crawl failure writes no "error" status: the keyword that was moved to
"crawling" is left there (the trace ends without any further status write),
contradicting the claim that the dispatch routine moves the keyword to
"error" on unrecoverable failure. -/
theorem manyKeywords_failure_leaves_crawling :
    manyKeywordsStep (some "to_crawl") CrawlOutcome.raisesError =
      [DispatchEvent.setStatus "crawling", DispatchEvent.crawl] ∧
    DispatchEvent.setStatus "error" ∉
      manyKeywordsStep (some "to_crawl") CrawlOutcome.raisesError := by
  refine ⟨rfl, by decide⟩

/-- C9 (amended): both dispatch routines start a crawl only when the stored
status is exactly "to_crawl" (a missing keyword or any other status —
"crawling", "crawled", "error" — is never dispatched), and they write
"crawling" before crawling; `process_keyword_from_db` then writes "crawled"
on success and "error" on empty results or exceptions, while
`crawl_video_in_channel_by_many_keywords` writes "crawled" on success but
leaves the keyword at "crawling" on failure. -/
theorem keywordDispatch_guarded (status : Option String) (outcome : CrawlOutcome)
    (h1 : DispatchEvent.crawl ∈ processKeywordFromDb status outcome ∨
      DispatchEvent.crawl ∈ manyKeywordsStep status outcome) :
    status = some "to_crawl" ∧
    processKeywordFromDb (some "to_crawl") outcome =
      [DispatchEvent.setStatus "crawling", DispatchEvent.crawl,
        DispatchEvent.setStatus
          (if outcome = CrawlOutcome.success then "crawled" else "error")] ∧
    manyKeywordsStep (some "to_crawl") CrawlOutcome.success =
      [DispatchEvent.setStatus "crawling", DispatchEvent.crawl,
        DispatchEvent.setStatus "crawled"] := by
  refine ⟨?_, ?_, rfl⟩
  · match status with
    | none =>
      rcases h1 with h | h <;> simp [processKeywordFromDb, manyKeywordsStep] at h
    | some s =>
      by_cases hc : s = "crawled"
      · rcases h1 with h | h <;>
          simp [processKeywordFromDb, manyKeywordsStep, hc] at h
      · by_cases ht : s = "to_crawl"
        · rw [ht]
        · rcases h1 with h | h <;>
            simp [processKeywordFromDb, manyKeywordsStep, hc, ht] at h
  · cases outcome <;> rfl

/-- C9 witness: concrete instantiation of `keywordDispatch_guarded` at a
"to_crawl" keyword whose crawl succeeds. -/
theorem keywordDispatch_guarded_witness :
    (DispatchEvent.crawl ∈
        processKeywordFromDb (some "to_crawl") CrawlOutcome.success ∨
      DispatchEvent.crawl ∈ manyKeywordsStep (some "to_crawl") CrawlOutcome.success) ∧
    ((some "to_crawl" : Option String) = some "to_crawl" ∧
      processKeywordFromDb (some "to_crawl") CrawlOutcome.success =
        [DispatchEvent.setStatus "crawling", DispatchEvent.crawl,
          DispatchEvent.setStatus
            (if CrawlOutcome.success = CrawlOutcome.success then "crawled" else "error")] ∧
      manyKeywordsStep (some "to_crawl") CrawlOutcome.success =
        [DispatchEvent.setStatus "crawling", DispatchEvent.crawl,
          DispatchEvent.setStatus "crawled"]) :=
  ⟨by decide,
    keywordDispatch_guarded (some "to_crawl") CrawlOutcome.success (by decide)⟩

end YoutubeScraping
